import Mathlib

/-!
Verification of the attendance-optimization core of `lpp-smartskipping`.

The embedding models the scorer `calculate_aps` and the two optimizers
`optimize_attendance_simplex` (fractional LP) and `optimize_attendance_integer`
(branch-and-bound over LP relaxations) from `cuttinngplanefinal.py` and
`modeluserwants.py`.  Python floats are modelled as exact rationals, Python's
`round(q, 3)` as rounding of `1000*q` to the nearest integer, and the external
`scipy.optimize.linprog` call as an abstract `Solver` parameter; theorems about
solver-produced results assume `SolverSound` (any solution the solver reports
satisfies the submitted constraints) or `SolverComplete` (the solver does not
fail on feasible problems), which is the documented contract of `linprog`.
The unbounded Python recursion of `branch_and_bound` is modelled with an
explicit recursion-depth budget (`fuel`); exhausting the budget is a
distinguished outcome `BnbRes.out`, so "the recursion terminates" becomes
"some finite budget suffices".
-/

namespace LppSmart

/-- Python's `round(q, 3)`: scale by 1000, round to nearest, scale back. -/
def round3 (q : ℚ) : ℚ := (round (1000 * q) : ℤ) / 1000

/-- One entry of the `PROFESSORS` catalog (id plus the four survey ratings). -/
structure Professor where
  id : ℕ
  pv : ℚ
  le : ℚ
  se : ℚ
  ar : ℚ
deriving DecidableEq

/-- The `PROFESSORS` reference list (identical in both source files). -/
def PROFESSORS : List Professor := [
  ⟨1, 7.2, 6.5, 7.0, 5.5⟩,
  ⟨2, 8.5, 7.8, 8.0, 9.2⟩,
  ⟨3, 7.0, 6.5, 6.8, 8.5⟩,
  ⟨4, 6.5, 5.8, 5.5, 7.0⟩,
  ⟨5, 7.8, 7.2, 7.5, 8.0⟩,
  ⟨6, 8.2, 7.5, 8.0, 8.8⟩,
  ⟨7, 7.5, 6.8, 7.2, 7.8⟩,
  ⟨8, 7.8, 7.0, 7.3, 8.2⟩,
  ⟨9, 7.3, 6.7, 7.0, 7.5⟩,
  ⟨10, 7.6, 6.9, 7.2, 7.9⟩,
  ⟨11, 7.1, 6.4, 6.7, 7.3⟩,
  ⟨12, 6.8, 6.2, 6.5, 7.0⟩,
  ⟨13, 7.4, 6.8, 7.1, 7.6⟩,
  ⟨14, 7.2, 6.6, 6.9, 7.4⟩,
  ⟨15, 7.7, 7.1, 7.4, 8.1⟩,
  ⟨16, 7.5, 6.9, 7.2, 7.7⟩]

/-- `find_professor`: first catalog entry with the given id, else `None`. -/
def find_professor (pid : ℕ) : Option Professor :=
  PROFESSORS.find? (fun p => p.id = pid)

/-- A `TIME_SLOTS` entry: slot id and categorical block tag. -/
structure TimeSlot where
  id : ℕ
  block : String
deriving DecidableEq

/-- The `TIME_SLOTS` catalog. -/
def TIME_SLOTS : List TimeSlot :=
  [⟨1, "morning"⟩, ⟨2, "morning"⟩, ⟨3, "midday"⟩,
   ⟨4, "midday"⟩, ⟨5, "afternoon"⟩, ⟨6, "afternoon"⟩]

/-- The `PRIORITY_MULTIPLIER` dict combined with the `.get(level, 1.10)`
default used at its only call site in `calculate_aps`. -/
def PRIORITY_MULTIPLIER (level : String) : ℚ :=
  if level = "Very High" then 1.40
  else if level = "High" then 1.25
  else if level = "Medium" then 1.10
  else if level = "Low" then 1.00
  else if level = "Avoid" then 0.80
  else 1.10

/-- The `timeBlockRatings` dict combined with the `.get(time_block, 7.0)`
default used at its only call site in `calculate_aps`. -/
def timeBlockRatings (b : String) : ℚ :=
  if b = "morning" then 7.5
  else if b = "midday" then 7.0
  else if b = "afternoon" then 6.5
  else 7.0

/-- The student profile: the two penalty scalars (`travelTime`,
`timeCommitment`), always present in the dict the GUI passes in. -/
structure StudentProfile where
  travelTime : ℚ
  timeCommitment : ℚ
deriving DecidableEq

/-- A priority assignment: instructor id to optional priority-level string
(the Python dict `priorities`, absent key = `None`). -/
abbrev Priorities : Type := ℕ → Option String

/-- `calculate_aps` from `cuttinngplanefinal.py` (identical in
`modeluserwants.py`): weighted linear combination scaled by the priority
multiplier and rounded to 3 decimals; 0.0 for unknown instructors. -/
def calculate_aps (instructor_id : ℕ) (time_block : String)
    (sp : StudentProfile) (priorities : Priorities) : ℚ :=
  match find_professor instructor_id with
  | none => 0
  | some prof =>
    let TB := timeBlockRatings time_block
    let HS : ℚ := 5.0
    let aps_base :=
      0.1476 * prof.pv + 0.1456 * prof.le + 0.1370 * prof.se + 0.1356 * prof.ar +
      0.1203 * TB + 0.1225 * HS - 0.0935 * sp.travelTime - 0.0979 * sp.timeCommitment
    let level := (priorities instructor_id).getD "Medium"
    let mult := PRIORITY_MULTIPLIER level
    round3 (aps_base * mult)

/-- One scheduled session of the weekly timetable (the `subject` label is
carried by the Python dicts but never read by the optimizers, so it is
omitted).  The timetable dict key is the pair (day, slotId). -/
structure Session where
  day : String
  slotId : ℕ
  instructorId : ℕ
deriving DecidableEq

/-- The timetable keys `f"{day}-{slotId}"` are pairwise distinct (guaranteed
in the source because the timetable itself is a dict keyed that way). -/
def keysNodup (tt : List Session) : Prop :=
  (tt.map (fun s => (s.day, s.slotId))).Nodup

instance (tt : List Session) : Decidable (keysNodup tt) := by
  unfold keysNodup; infer_instance

/-- `slot["block"] if slot else "midday"`: block tag of a slot id. -/
def blockOf (slotId : ℕ) : String :=
  (((TIME_SLOTS.find? (fun s => s.id = slotId)).map TimeSlot.block)).getD "midday"

/-- The `class_list` construction shared by both optimizers: each session
paired with its APS value. -/
def mkClassList (tt : List Session) (sp : StudentProfile)
    (prio : Priorities) : List (Session × ℚ) :=
  tt.map (fun cls => (cls, calculate_aps cls.instructorId (blockOf cls.slotId) sp prio))

/-- A linear program as handed to `scipy.optimize.linprog`: objective vector,
`A_ub`/`b_ub` rows, `A_eq`/`b_eq` rows, and the variable count; the variable
bounds are always `(0.0, 1.0)` in this program, so they are left implicit. -/
structure LinProg where
  c : List ℚ
  ubRows : List (List ℚ × ℚ)
  eqRows : List (List ℚ × ℚ)
  nvars : ℕ
deriving DecidableEq

/-- Row–vector dot product (`A @ x` entries in `linprog`). -/
def dot (r x : List ℚ) : ℚ := (List.zipWith (fun a b => a * b) r x).sum

/-- `x` is feasible for the linear program: right length, all `A_ub x ≤ b_ub`
and `A_eq x = b_eq` rows hold, and the `(0, 1)` variable bounds hold. -/
def Satisfies (lp : LinProg) (x : List ℚ) : Prop :=
  x.length = lp.nvars ∧
  (∀ r ∈ lp.ubRows, dot r.1 x ≤ r.2) ∧
  (∀ r ∈ lp.eqRows, dot r.1 x = r.2) ∧
  (∀ xi ∈ x, 0 ≤ xi ∧ xi ≤ 1)

instance (lp : LinProg) (x : List ℚ) : Decidable (Satisfies lp x) := by
  unfold Satisfies; infer_instance

/-- The LP has at least one feasible point. -/
def LPFeasible (lp : LinProg) : Prop := ∃ x, Satisfies lp x

/-- The abstract `linprog` call: maps an LP to `some x` (success with solution
`x`) or `none` (failure: infeasible or numerical breakdown). -/
abbrev Solver : Type := LinProg → Option (List ℚ)

/-- Solver contract (soundness): every reported solution is feasible. -/
def SolverSound (S : Solver) : Prop :=
  ∀ lp x, S lp = some x → Satisfies lp x

/-- Solver contract (completeness): the solver does not fail on feasible
problems. -/
def SolverComplete (S : Solver) : Prop :=
  ∀ lp, LPFeasible lp → S lp ≠ none

/-- Number of weekly sessions of one instructor in the timetable. -/
def instrCountTT (tt : List Session) (iid : ℕ) : ℕ :=
  (tt.filter (fun s => s.instructorId = iid)).length

/-- Instructor constraint row: `-1.0` at that instructor's session indices
(`sum of the instructor's x_i >= 2` encoded as `-sum <= -2`). -/
def instrRow (cl : List (Session × ℚ)) (iid : ℕ) : List ℚ :=
  cl.map (fun c => if c.1.instructorId = iid then (-1 : ℚ) else 0)

/-- The `A_ub`/`b_ub` instructor-minimum rows: one row `(-indicator, -2)` per
instructor with at least two weekly sessions, in order of first appearance
(Python dict insertion order). -/
def instructorUbRows (cl : List (Session × ℚ)) : List (List ℚ × ℚ) :=
  ((cl.map (fun c => c.1.instructorId)).dedup).filterMap
    (fun iid => if 2 ≤ (cl.filter (fun c => c.1.instructorId = iid)).length
      then some (instrRow cl iid, (-2 : ℚ)) else none)

/-- `max(0.0, min(100.0, float(p)))`: the target-percent clamp. -/
def clampPct (p : ℚ) : ℚ := max 0 (min 100 p)

/-- `required_per_week` of the fractional model:
`total_classes_per_week * d_pct` (may be fractional). -/
def requiredFrac (tt : List Session) (pct : ℚ) : ℚ :=
  (tt.length : ℚ) * (clampPct pct / 100)

/-- Objective coefficients: negated APS values (`linprog` minimizes). -/
def negCosts (cl : List (Session × ℚ)) : List ℚ := cl.map (fun c => -c.2)

/-- The LP submitted by the first `linprog` call of
`optimize_attendance_simplex`: negated-APS objective, instructor-minimum
`A_ub` rows, and the equality row `sum x_i = required_per_week`. -/
def fracBaseLP (tt : List Session) (sp : StudentProfile) (prio : Priorities)
    (pct : ℚ) : LinProg :=
  { c := negCosts (mkClassList tt sp prio),
    ubRows := instructorUbRows (mkClassList tt sp prio),
    eqRows := [(List.replicate tt.length (1 : ℚ), requiredFrac tt pct)],
    nvars := tt.length }

/-- The relaxed LP of the retry: same problem with `A_ub=None`. -/
def fracRelaxedLP (tt : List Session) (sp : StudentProfile) (prio : Priorities)
    (pct : ℚ) : LinProg :=
  { fracBaseLP tt sp prio pct with ubRows := [] }

/-- One `attendance_fractions` entry: the session plus its APS, the 3-decimal
rounded fraction and the rounded weighted contribution. -/
structure FracEntry where
  session : Session
  aps : ℚ
  fraction : ℚ
  aps_weighted : ℚ
deriving DecidableEq

/-- The fractional `OptimizationResult` fields the specification's claims are
about (semester projections are 20-week multiples of these and are omitted). -/
structure FracResult where
  fractions : List FracEntry
  totalClassesWeek : ℕ
  requiredClassesWeek : ℚ
  totalFractionalClassesWeek : ℚ
  totalValue : ℚ
deriving DecidableEq

/-- One `attendance_fractions` entry from a (class, aps) pair and its solver
value. -/
def mkFracEntry (cv : (Session × ℚ) × ℚ) : FracEntry :=
  { session := cv.1.1, aps := cv.1.2, fraction := round3 cv.2,
    aps_weighted := round3 (cv.2 * cv.1.2) }

/-- Result packaging of `optimize_attendance_simplex` from a solver solution
`x` (the Python dict keyed by `f"{day}-{slotId}"` is modelled as the list of
its values in insertion order; keys are distinct for `keysNodup` timetables). -/
def buildFrac (cl : List (Session × ℚ)) (x : List ℚ) (required : ℚ) :
    FracResult :=
  let fractions := (cl.zip x).map mkFracEntry
  { fractions := fractions,
    totalClassesWeek := cl.length,
    requiredClassesWeek := round3 required,
    totalFractionalClassesWeek := round3 ((fractions.map (fun e => e.fraction)).sum),
    totalValue := round3 ((fractions.map (fun e => e.aps_weighted)).sum) }

/-- Observable outcome of `optimize_attendance_simplex`: a result, `None`, or
an uncaught exception (the source reads `result.x` of a failed solve when the
first call fails with no instructor rows present). -/
inductive FracOutcome where
  | ok (r : FracResult)
  | null
  | crash
deriving DecidableEq

/-- `optimize_attendance_simplex` from `modeluserwants.py`: empty timetable
gives `None`; otherwise solve the base LP; on failure retry without the
instructor rows when such rows exist (else the source dereferences the failed
result, modelled `crash`); if the retry also fails, `None`. -/
def optimize_attendance_simplex (S : Solver) (tt : List Session)
    (sp : StudentProfile) (prio : Priorities) (pct : ℚ) : FracOutcome :=
  if tt.length = 0 then .null
  else
    match S (fracBaseLP tt sp prio pct) with
    | some x => .ok (buildFrac (mkClassList tt sp prio) x (requiredFrac tt pct))
    | none =>
      if instructorUbRows (mkClassList tt sp prio) ≠ [] then
        match S (fracRelaxedLP tt sp prio pct) with
        | some x => .ok (buildFrac (mkClassList tt sp prio) x (requiredFrac tt pct))
        | none => .null
      else .crash

/-- Result of one (fuel-bounded) `branch_and_bound` call: the updated
`best_solution` (objective and rounded 0/1 vector, `none` while no integer
solution has been found), or `out` when the depth budget is exhausted (the
Python recursion has no budget; `out` marks computations it would only finish
by recursing deeper). -/
inductive BnbRes where
  | out
  | done (best : Option (ℚ × List ℤ))
deriving DecidableEq

/-- `best_solution["obj"]`, initialized to `-1e99`. -/
def bestObj : Option (ℚ × List ℤ) → ℚ
  | none => -(10 ^ 99)
  | some b => b.1

/-- Unit row used by the two branching constraints (`row0`/`row1`):
`1.0` at the branch variable, `0.0` elsewhere. -/
def mkUnitRow (n j : ℕ) : List ℚ :=
  (List.range n).map (fun i => if i = j then (1 : ℚ) else 0)

/-- `frac_scores.sort(key=...)` then taking the first element: the earliest
index of `l` minimizing `|x_i - 0.5|` (Python's sort is stable). -/
def mostFractional (x : List ℚ) : List ℕ → ℕ → ℕ
  | [], b => b
  | i :: t, b =>
    mostFractional x t
      (if |x.getD i 0 - 1/2| < |x.getD b 0 - 1/2| then i else b)

/-- The indices of `x` failing the 1e-6 integrality test
(`fractional_indices`). -/
def fracIndices (x : List ℚ) : List ℕ :=
  (x.enum.filter (fun p => 1/1000000 < |p.2 - ((round p.2 : ℤ) : ℚ)|)).map Prod.fst

/-- The strictly fractional indices at the 1e-8 threshold (`frac_vars`). -/
def strictFracVars (x : List ℚ) : List ℕ :=
  (x.enum.filter (fun p => 1/100000000 < p.2 ∧ p.2 < 1 - 1/100000000)).map Prod.fst

/-- Guard of the cover-cut heuristic: at least two strictly fractional
variables and `rhs = floor(s) < len(frac_vars)`. -/
def cutCond (x : List ℚ) : Prop :=
  2 ≤ (strictFracVars x).length ∧
    ⌊((strictFracVars x).map (fun i => x.getD i 0)).sum⌋ <
      ((strictFracVars x).length : ℤ)

instance (x : List ℚ) : Decidable (cutCond x) := by
  unfold cutCond; infer_instance

/-- The cover-cut row: `1.0` at each strictly fractional index. -/
def cutRow (x : List ℚ) (n : ℕ) : List ℚ :=
  (List.range n).map (fun j => if j ∈ strictFracVars x then (1 : ℚ) else 0)

/-- The cover-cut right-hand side `float(rhs)`. -/
def cutRhs (x : List ℚ) : ℚ :=
  ((⌊((strictFracVars x).map (fun i => x.getD i 0)).sum⌋ : ℤ) : ℚ)

/-- `branch_and_bound` from `cuttinngplanefinal.py`, with an explicit
recursion-depth budget.  `c`, `bUb`, `bEq`, `n` are the closed-over base data
(`solve_lp` always prepends the base rows); `aU`/`aE` are the accumulated
`add_A_ub`/`add_A_eq` constraint lists of the current node and `best` the
threaded `best_solution`.  The node: solve the relaxation; prune on failure or
non-improving bound; record rounded integral solutions; otherwise optionally
recurse with a cover cut, then branch the most fractional variable to 0
(`x ≤ 0` in `A_ub`) and to 1 (`x = 1` in `A_eq`). -/
def bnb (S : Solver) (c : List ℚ) (bUb bEq : List (List ℚ × ℚ)) (n : ℕ) :
    ℕ → List (List ℚ × ℚ) → List (List ℚ × ℚ) → Option (ℚ × List ℤ) → BnbRes
  | 0, _, _, _ => .out
  | fuel + 1, aU, aE, best =>
    match S ⟨c, bUb ++ aU, bEq ++ aE, n⟩ with
    | none => .done best
    | some x =>
      let obj := -(dot c x)
      if obj ≤ bestObj best + 1/1000000 then .done best
      else
        if fracIndices x = [] then
          if bestObj best < obj then .done (some (obj, x.map (fun xi => round xi)))
          else .done best
        else
          let cutStep :=
            if cutCond x then
              match S ⟨c, bUb ++ (aU ++ [(cutRow x n, cutRhs x)]), bEq ++ aE, n⟩ with
              | some _ => bnb S c bUb bEq n fuel (aU ++ [(cutRow x n, cutRhs x)]) aE best
              | none => .done best
            else .done best
          match cutStep with
          | .out => .out
          | .done best1 =>
            let bv := mostFractional x (fracIndices x) ((fracIndices x).headD 0)
            match bnb S c bUb bEq n fuel (aU ++ [(mkUnitRow n bv, 0)]) aE best1 with
            | .out => .out
            | .done best2 =>
              bnb S c bUb bEq n fuel aU (aE ++ [(mkUnitRow n bv, 1)]) best2

/-- `required_per_week` of the integer model: `ceil(n * d_pct)`. -/
def requiredInt (tt : List Session) (pct : ℚ) : ℤ :=
  ⌈(tt.length : ℚ) * (clampPct pct / 100)⌉

/-- The base equality rows of the integer model:
`sum x_i == required_per_week`. -/
def intBaseEq (tt : List Session) (pct : ℚ) : List (List ℚ × ℚ) :=
  [(List.replicate tt.length (1 : ℚ), (requiredInt tt pct : ℚ))]

/-- The LP of the root `branch_and_bound` node of
`optimize_attendance_integer` (no accumulated cuts or branches yet). -/
def intBaseLP (tt : List Session) (sp : StudentProfile) (prio : Priorities)
    (pct : ℚ) : LinProg :=
  { c := negCosts (mkClassList tt sp prio),
    ubRows := instructorUbRows (mkClassList tt sp prio),
    eqRows := intBaseEq tt pct,
    nvars := tt.length }

/-- The root LP with the instructor-minimum rows dropped.  The source of
`optimize_attendance_integer` never submits this problem; it is stated here to
express the relaxation-retry claim. -/
def intRelaxedLP (tt : List Session) (sp : StudentProfile) (prio : Priorities)
    (pct : ℚ) : LinProg :=
  { intBaseLP tt sp prio pct with ubRows := [] }

/-- The root `branch_and_bound()` call of `optimize_attendance_integer`. -/
def intRootBnb (S : Solver) (tt : List Session) (sp : StudentProfile)
    (prio : Priorities) (pct : ℚ) (fuel : ℕ) : BnbRes :=
  bnb S (negCosts (mkClassList tt sp prio))
    (instructorUbRows (mkClassList tt sp prio)) (intBaseEq tt pct)
    tt.length fuel [] [] none

/-- The Python recursion (no depth budget) reaches its base cases: some
finite depth budget suffices. -/
def BnbTerminates (S : Solver) (tt : List Session) (sp : StudentProfile)
    (prio : Priorities) (pct : ℚ) : Prop :=
  ∃ fuel, intRootBnb S tt sp prio pct fuel ≠ .out

/-- One `attendance_selection` entry: the session, its 0/1 decision, its APS
and the rounded contribution `round(aps * val, 3)`. -/
structure IntEntry where
  session : Session
  selected : ℤ
  aps : ℚ
  aps_contrib : ℚ
deriving DecidableEq

/-- One `attendance_selection` entry from a (class, aps) pair and its 0/1
decision: `selected = int(val)` and `aps_contrib = round(aps * val, 3)`. -/
def mkIntEntry (cv : (Session × ℚ) × ℤ) : IntEntry :=
  { session := cv.1.1, selected := cv.2, aps := cv.1.2,
    aps_contrib := round3 (cv.1.2 * (cv.2 : ℚ)) }

/-- The integer `OptimizationResult` fields the claims are about. -/
structure IntResult where
  selection : List IntEntry
  totalClassesWeek : ℕ
  requiredClassesWeek : ℤ
  selectedWeek : ℤ
  totalValue : ℚ
  avgValue : ℚ
  optimalObj : ℚ
deriving DecidableEq

/-- `optimize_attendance_integer` from `cuttinngplanefinal.py`: build the
class list, return `None` on an empty timetable, run branch-and-bound, and
package the best integral solution (`None` when none was found; fuel
exhaustion, where the Python recursion would not return at all, also yields no
result). -/
def optimize_attendance_integer (S : Solver) (fuel : ℕ) (tt : List Session)
    (sp : StudentProfile) (prio : Priorities) (pct : ℚ) : Option IntResult :=
  if tt.length = 0 then none
  else
    match intRootBnb S tt sp prio pct fuel with
    | .out => none
    | .done none => none
    | .done (some (obj, xInt)) =>
      let cl := mkClassList tt sp prio
      let selection := (cl.zip xInt).map mkIntEntry
      let selectedWeek := (selection.map (fun e => e.selected)).sum
      let totalValue := (selection.map (fun e => e.aps_contrib)).sum
      some { selection := selection,
             totalClassesWeek := tt.length,
             requiredClassesWeek := requiredInt tt pct,
             selectedWeek := selectedWeek,
             totalValue := round3 totalValue,
             avgValue := if 0 < selectedWeek
               then round3 (totalValue / (selectedWeek : ℚ)) else 0,
             optimalObj := obj }

/-! ### Arithmetic helper lemmas -/

/-- `q` is an integer multiple of `1/1000` (the grid of 3-decimal values). -/
def Thousandth (q : ℚ) : Prop := ∃ z : ℤ, q = z / 1000

/-! ### C3: the scorer formula -/

/-- The multiplier table exactly as claim C3 states it: the five named levels
with their factors, and `1.10` when the instructor has no assigned level. -/
def specMultiplier : Option String → ℚ
  | none => 1.10
  | some l =>
    if l = "Very High" then 1.40
    else if l = "High" then 1.25
    else if l = "Medium" then 1.10
    else if l = "Low" then 1.00
    else if l = "Avoid" then 0.80
    else 1.10

/-- The scorer output exactly as claim C3 states it: the fixed weight vector
applied to the instructor ratings, time-block rating, the `5.0` baseline and
the two profile penalties, scaled by the priority multiplier and rounded to
three decimals. -/
def specAps (prof : Professor) (time_block : String) (sp : StudentProfile)
    (lvl : Option String) : ℚ :=
  round3 ((0.1476 * prof.pv + 0.1456 * prof.le + 0.1370 * prof.se +
    0.1356 * prof.ar + 0.1203 * timeBlockRatings time_block + 0.1225 * 5.0 -
    0.0935 * sp.travelTime - 0.0979 * sp.timeCommitment) * specMultiplier lvl)

/-- The student profile and priority assignment used by the concrete
scenarios below (travelTime 2.0, timeCommitment 0.5, no priorities set). -/
def sp0 : StudentProfile := ⟨2, 1/2⟩

/-- The empty priority assignment. -/
def prio0 : Priorities := fun _ => none

/-- Two-session, one-instructor timetable. -/
def tt4 : List Session := [⟨"Monday", 1, 1⟩, ⟨"Monday", 2, 1⟩]

/-- The solver that always fails. -/
def failSolver : Solver := fun _ => none

/-- The solver of the C4 counterexample: succeeds (returning all zeros) on any
LP without inequality rows, fails otherwise.  On the two problems it is asked
below this is exactly what a correct LP solver does: the base problem is
infeasible and the relaxed one is feasible. -/
def noUbSolver : Solver :=
  fun lp => if lp.ubRows = [] then some (List.replicate lp.nvars 0) else none

/-! ### The branch-and-bound integrality invariant (C1, C5, C9) -/

/-- Per-instructor 0/1 decision sum over the class list. -/
def decSum (cl : List (Session × ℚ)) (xInt : List ℤ) (iid : ℕ) : ℤ :=
  (List.zipWith (fun (c : Session × ℚ) v =>
    if c.1.instructorId = iid then v else 0) cl xInt).sum

/-- Per-instructor fractional-solution sum over the class list. -/
def instrFracSum (cl : List (Session × ℚ)) (x : List ℚ) (iid : ℕ) : ℚ :=
  (List.zipWith (fun (c : Session × ℚ) xi =>
    if c.1.instructorId = iid then xi else 0) cl x).sum

/-- Invariant of every integer solution `branch_and_bound` records: right
length, binary values, total equal to the required count, and every
instructor-minimum constraint met by the 0/1 decisions. -/
def GoodX (cl : List (Session × ℚ)) (req : ℤ) (xInt : List ℤ) : Prop :=
  xInt.length = cl.length ∧ (∀ v ∈ xInt, v = 0 ∨ v = 1) ∧ xInt.sum = req ∧
  ∀ iid, 2 ≤ (cl.filter (fun c => c.1.instructorId = iid)).length →
    2 ≤ decSum cl xInt iid

/-- `best_solution` is still `None` or records a good vector. -/
def GoodBest (cl : List (Session × ℚ)) (req : ℤ) : Option (ℚ × List ℤ) → Prop
  | none => True
  | some b => GoodX cl req b.2

/-! ### A concrete integer-optimizer run shared by the witnesses -/

/-- Two sessions of an instructor id absent from the catalog (APS 0), so the
run's arithmetic is trivial. -/
def ttW : List Session := [⟨"Monday", 1, 99⟩, ⟨"Monday", 2, 99⟩]

/-- A globally sound solver: answers `[1, 1]` whenever that vector is feasible
for the submitted problem, else fails. -/
def satSolver : Solver :=
  fun lp => if Satisfies lp [1, 1] then some [1, 1] else none

/-- The concrete result of the witness run. -/
def resW : IntResult :=
  { selection := [⟨⟨"Monday", 1, 99⟩, 1, 0, 0⟩, ⟨⟨"Monday", 2, 99⟩, 1, 0, 0⟩],
    totalClassesWeek := 2, requiredClassesWeek := 2, selectedWeek := 2,
    totalValue := 0, avgValue := 0, optimalObj := 0 }

/-- The C2 counterexample timetable: one session, target percent 0.01. -/
def tt2 : List Session := [⟨"Monday", 1, 1⟩]

/-- A solver answering the exact LP of the `tt2` run with the exact optimum
`x = [0.0001]` (and failing on everything else): sound. -/
def S2 : Solver :=
  fun lp => if lp = fracBaseLP tt2 sp0 prio0 (1/100) then some [1/10000] else none

/-- The result of the `tt2` run. -/
def res2 : FracResult :=
  buildFrac (mkClassList tt2 sp0 prio0) [1/10000] (requiredFrac tt2 (1/100))

/-- The C5 counterexample timetable: instructor 1 three times, instructor 2
once, target percent 75 (required sum 3). -/
def tt5 : List Session :=
  [⟨"Monday", 1, 1⟩, ⟨"Monday", 2, 1⟩, ⟨"Monday", 3, 1⟩, ⟨"Monday", 4, 2⟩]

/-- An exact optimal solution of the `tt5` base LP whose instructor-1
fractions are each just below their 3-decimal midpoint. -/
def x5 : List ℚ := [66649/100000, 66649/100000, 66702/100000, 1]

/-- A solver answering the `tt5` base LP with `x5` and failing elsewhere. -/
def S5 : Solver :=
  fun lp => if lp = fracBaseLP tt5 sp0 prio0 75 then some x5 else none

/-- The result of the `tt5` run. -/
def res5 : FracResult :=
  buildFrac (mkClassList tt5 sp0 prio0) x5 (requiredFrac tt5 75)

/-! ### C6: termination of the branch-and-bound recursion -/

/-- Four sessions of one instructor, for the non-termination scenario. -/
def tt6 : List Session :=
  [⟨"Monday", 1, 1⟩, ⟨"Monday", 2, 1⟩, ⟨"Monday", 3, 1⟩, ⟨"Monday", 4, 1⟩]

/-- The half-integral point the adversarial-but-sound solver always returns. -/
def xstar : List ℚ := [1/2, 1/2, 1/2, 1/2]

/-- A sound solver: returns `xstar` whenever it is feasible for the submitted
4-variable problem, else fails.  A deterministic LP method that returns a
non-vertex optimum (e.g. an interior-point solution of a degenerate
objective) behaves this way. -/
def S6 : Solver :=
  fun lp => if lp.nvars = 4 ∧ Satisfies lp xstar then some xstar else none

/-- `branch_and_bound` with the cover-cut recursion step removed: every
recursive call fixes the branch variable to 0 (`A_ub` row `x_bv ≤ 0`) or
to 1 (`A_eq` row `x_bv = 1`). -/
def bnbNC (S : Solver) (c : List ℚ) (bUb bEq : List (List ℚ × ℚ)) (n : ℕ) :
    ℕ → List (List ℚ × ℚ) → List (List ℚ × ℚ) → Option (ℚ × List ℤ) → BnbRes
  | 0, _, _, _ => .out
  | fuel + 1, aU, aE, best =>
    match S ⟨c, bUb ++ aU, bEq ++ aE, n⟩ with
    | none => .done best
    | some x =>
      if -(dot c x) ≤ bestObj best + 1/1000000 then .done best
      else
        if fracIndices x = [] then
          if bestObj best < -(dot c x) then
            .done (some (-(dot c x), x.map (fun xi => round xi)))
          else .done best
        else
          match bnbNC S c bUb bEq n fuel
              (aU ++ [(mkUnitRow n (mostFractional x (fracIndices x)
                ((fracIndices x).headD 0)), 0)]) aE best with
          | .out => .out
          | .done best2 => bnbNC S c bUb bEq n fuel aU
              (aE ++ [(mkUnitRow n (mostFractional x (fracIndices x)
                ((fracIndices x).headD 0)), 1)]) best2

/-- Number of variables already fixed by accumulated branching rows. -/
def fixedCount (n : ℕ) (aU aE : List (List ℚ × ℚ)) : ℕ :=
  ((Finset.range n).filter (fun j =>
    (mkUnitRow n j, (0 : ℚ)) ∈ aU ∨ (mkUnitRow n j, (1 : ℚ)) ∈ aE)).card

theorem round3_thousandth (q : ℚ) : Thousandth (round3 q) :=
  ⟨round (1000 * q), rfl⟩

theorem thousandth_zero : Thousandth 0 := ⟨0, by norm_num⟩

theorem thousandth_add {a b : ℚ} (ha : Thousandth a) (hb : Thousandth b) :
    Thousandth (a + b) := by
  obtain ⟨z, hz⟩ := ha
  obtain ⟨w, hw⟩ := hb
  exact ⟨z + w, by rw [hz, hw]; push_cast; ring⟩

theorem round3_eq_self {q : ℚ} (h : Thousandth q) : round3 q = q := by
  obtain ⟨z, hz⟩ := h
  have h1000 : 1000 * q = (z : ℚ) := by rw [hz]; ring
  rw [round3, h1000, round_intCast, hz]

theorem abs_round3_sub (q : ℚ) : |round3 q - q| ≤ 1 / 2000 := by
  have h := abs_sub_round (1000 * q)
  rw [abs_sub_comm] at h
  have : round3 q - q = (((round (1000 * q) : ℤ) : ℚ) - 1000 * q) / 1000 := by
    rw [round3]; ring
  rw [this, abs_div]
  rw [show |(1000 : ℚ)| = 1000 by norm_num]
  linarith [h]

theorem round_nonneg {q : ℚ} (h0 : 0 ≤ q) : (0 : ℤ) ≤ round q := by
  rw [round_eq]
  exact Int.le_floor.mpr (by push_cast; linarith)

theorem round_mem_unit {q : ℚ} (h0 : 0 ≤ q) (h1 : q ≤ 1) :
    round q = 0 ∨ round q = 1 := by
  have hlo : (0 : ℤ) ≤ round q := round_nonneg h0
  have hhi : round q < 2 := by
    rw [round_eq]
    exact Int.floor_lt.mpr (by push_cast; linarith)
  omega

theorem round3_mem_unit {q : ℚ} (h0 : 0 ≤ q) (h1 : q ≤ 1) :
    0 ≤ round3 q ∧ round3 q ≤ 1 := by
  have hlo : (0 : ℤ) ≤ round (1000 * q) := round_nonneg (by linarith)
  have hhi : round (1000 * q) < 1001 := by
    rw [round_eq]
    exact Int.floor_lt.mpr (by push_cast; linarith)
  constructor
  · rw [round3]
    apply div_nonneg _ (by norm_num : (0:ℚ) ≤ 1000)
    exact_mod_cast hlo
  · rw [round3]
    rw [div_le_one (by norm_num : (0:ℚ) < 1000)]
    exact_mod_cast (by omega : round (1000 * q) ≤ 1000)

/-! ### List-sum helper lemmas -/

theorem dot_replicate_one (x : List ℚ) : dot (List.replicate x.length 1) x = x.sum := by
  induction x with
  | nil => rfl
  | cons a t ih =>
    simp only [List.length_cons, List.replicate_succ, dot, List.zipWith_cons_cons,
      List.sum_cons, one_mul] at ih ⊢
    rw [ih]

theorem dot_replicate_one_of_length (n : ℕ) (x : List ℚ) (h : x.length = n) :
    dot (List.replicate n 1) x = x.sum := by
  subst h
  exact dot_replicate_one x

theorem linprog_drop_ub_eq (lp : LinProg) (h : lp.ubRows = []) :
    ({ lp with ubRows := [] } : LinProg) = lp := by
  cases lp
  simp_all

theorem sum_map_sub (x : List ℚ) (f g : ℚ → ℚ) :
    (x.map f).sum - (x.map g).sum = (x.map (fun a => f a - g a)).sum := by
  induction x with
  | nil => simp
  | cons a t ih => simp only [List.map_cons, List.sum_cons]; linarith

theorem sum_map_sub_self (x : List ℚ) (f : ℚ → ℚ) :
    (x.map f).sum - x.sum = (x.map (fun a => f a - a)).sum := by
  induction x with
  | nil => simp
  | cons a t ih => simp only [List.map_cons, List.sum_cons]; linarith

theorem abs_sum_map_le (x : List ℚ) (f : ℚ → ℚ) (ε : ℚ) (hε : 0 ≤ ε)
    (h : ∀ a ∈ x, |f a| ≤ ε) : |(x.map f).sum| ≤ (x.length : ℚ) * ε := by
  induction x with
  | nil => simp
  | cons a t ih =>
    simp only [List.map_cons, List.sum_cons, List.length_cons]
    calc |f a + (t.map f).sum| ≤ |f a| + |(t.map f).sum| := abs_add _ _
      _ ≤ ε + (t.length : ℚ) * ε := by
          have h1 := h a (List.mem_cons_self a t)
          have h2 := ih (fun b hb => h b (List.mem_cons_of_mem a hb))
          linarith
      _ = ((t.length + 1 : ℕ) : ℚ) * ε := by push_cast; ring

theorem cast_list_sum_int (l : List ℤ) :
    ((l.sum : ℤ) : ℚ) = (l.map (fun z : ℤ => (z : ℚ))).sum :=
  Int.cast_list_sum l

theorem dot_instrRow (cl : List (Session × ℚ)) (x : List ℚ) (iid : ℕ) :
    dot (instrRow cl iid) x =
      -(List.zipWith (fun (c : Session × ℚ) xi =>
          if c.1.instructorId = iid then xi else 0) cl x).sum := by
  induction cl generalizing x with
  | nil => simp [dot, instrRow]
  | cons c t ih =>
    cases x with
    | nil => simp [dot, instrRow]
    | cons xi xs =>
      have hstep : dot (instrRow (c :: t) iid) (xi :: xs)
          = (if c.1.instructorId = iid then (-1 : ℚ) else 0) * xi + dot (instrRow t iid) xs := by
        simp [dot, instrRow]
      rw [hstep, ih]
      by_cases h : c.1.instructorId = iid <;> simp [h] <;> ring

theorem thousandth_list_sum (l : List ℚ) (h : ∀ a ∈ l, Thousandth a) :
    Thousandth l.sum := by
  induction l with
  | nil => simpa using thousandth_zero
  | cons a t ih =>
    rw [List.sum_cons]
    exact thousandth_add (h a (List.mem_cons_self a t))
      (ih (fun b hb => h b (List.mem_cons_of_mem a hb)))

theorem zipWith_sum_abs_le (cl : List (Session × ℚ)) (x : List ℚ)
    (f g : (Session × ℚ) → ℚ → ℚ) (ε : ℚ) (hε : 0 ≤ ε)
    (h : ∀ c ∈ cl, ∀ xi ∈ x, |f c xi - g c xi| ≤ ε) :
    |(List.zipWith f cl x).sum - (List.zipWith g cl x).sum| ≤ (cl.length : ℚ) * ε := by
  induction cl generalizing x with
  | nil => simp
  | cons c t ih =>
    cases x with
    | nil =>
      simp only [List.zipWith_nil_right, List.sum_nil, sub_self, abs_zero, List.length_cons]
      positivity
    | cons xi xs =>
      simp only [List.zipWith_cons_cons, List.sum_cons, List.length_cons]
      have h1 : |f c xi - g c xi| ≤ ε :=
        h c (List.mem_cons_self c t) xi (List.mem_cons_self xi xs)
      have h2 := ih xs (fun c' hc' xi' hxi' =>
        h c' (List.mem_cons_of_mem c hc') xi' (List.mem_cons_of_mem xi hxi'))
      calc |f c xi + (List.zipWith f t xs).sum - (g c xi + (List.zipWith g t xs).sum)|
          = |(f c xi - g c xi) + ((List.zipWith f t xs).sum - (List.zipWith g t xs).sum)| := by
            ring_nf
        _ ≤ |f c xi - g c xi| + |(List.zipWith f t xs).sum - (List.zipWith g t xs).sum| :=
            abs_add _ _
        _ ≤ ε + (t.length : ℚ) * ε := by linarith
        _ = ((t.length + 1 : ℕ) : ℚ) * ε := by push_cast; ring

/-- C3: for every known instructor id, time block, student profile and
priority assignment, `calculate_aps` returns exactly the rounded weighted
combination `round3(base * multiplier)` with the fixed weight vector
(0.1476, 0.1456, 0.1370, 0.1356, 0.1203, 0.1225, 0.0935, 0.0979), the
multipliers (1.40, 1.25, 1.10, 1.00, 0.80) for the five priority levels, and
1.10 when no priority level is assigned. -/
theorem c3_scorer_formula (pid : ℕ) (prof : Professor)
    (h : find_professor pid = some prof) (time_block : String)
    (sp : StudentProfile) (prio : Priorities) :
    calculate_aps pid time_block sp prio = specAps prof time_block sp (prio pid) := by
  rw [calculate_aps, h]
  rw [specAps]
  rcases hp : prio pid with _ | l
  · rfl
  · rfl

/-- Witness for C3 at the spec's own scenario: instructor 2, morning block,
travelTime 2.0, timeCommitment 0.5, no assigned priority. -/
theorem c3_scorer_formula_witness :
    find_professor 2 = some ⟨2, 8.5, 7.8, 8.0, 9.2⟩ ∧
    calculate_aps 2 "morning" ⟨2, 1/2⟩ (fun _ => none) =
      specAps ⟨2, 8.5, 7.8, 8.0, 9.2⟩ "morning" ⟨2, 1/2⟩ none :=
  ⟨by norm_num [find_professor, PROFESSORS, List.find?], c3_scorer_formula 2 ⟨2, 8.5, 7.8, 8.0, 9.2⟩ (by norm_num [find_professor, PROFESSORS, List.find?]) "morning" ⟨2, 1/2⟩
    (fun _ => none)⟩

/-! ### C7: empty timetable -/

/-- C7: on a timetable with zero sessions both optimizers return `None`
(and no exception: the embedding is a total function), for every solver,
depth budget, profile, priority assignment and target percent. -/
theorem c7_empty_timetable (S : Solver) (fuel : ℕ) (sp : StudentProfile)
    (prio : Priorities) (pct : ℚ) :
    optimize_attendance_simplex S [] sp prio pct = .null ∧
    optimize_attendance_integer S fuel [] sp prio pct = none := by
  constructor
  · rw [optimize_attendance_simplex]
    rfl
  · rw [optimize_attendance_integer]
    rfl

/-! ### C8: unknown instructor -/

/-- C8: an instructor id that does not resolve in the catalog gets APS
exactly 0 from the scorer, for every time block, student profile and priority
assignment (a total-function fallback, not an exception), so the optimizer's
class list simply carries a zero utility for such a session. -/
theorem c8_unknown_instructor (pid : ℕ) (h : find_professor pid = none)
    (time_block : String) (sp : StudentProfile) (prio : Priorities) :
    calculate_aps pid time_block sp prio = 0 := by
  rw [calculate_aps, h]

/-- Witness for C8: instructor id 99 is not in the catalog. -/
theorem c8_unknown_instructor_witness :
    find_professor 99 = none ∧
    calculate_aps 99 "morning" ⟨2, 1/2⟩ (fun _ => none) = 0 :=
  ⟨by decide, c8_unknown_instructor 99 (by decide) "morning" ⟨2, 1/2⟩ (fun _ => none)⟩

/-! ### C4: graceful relaxation on solver failure -/

/-- C4 (amended): the claim holds for the fractional optimizer only.  When the
first solve fails with instructor-minimum rows present, the outcome is `null`
exactly when the relaxed retry also fails, and a successful retry's solution is
packaged as the result.  (The integer optimizer performs no such retry; see the
counterexample.) -/
theorem c4_fractional_relaxation (S : Solver) (tt : List Session)
    (sp : StudentProfile) (prio : Priorities) (pct : ℚ)
    (h0 : tt ≠ []) (h1 : S (fracBaseLP tt sp prio pct) = none)
    (h2 : instructorUbRows (mkClassList tt sp prio) ≠ []) :
    (optimize_attendance_simplex S tt sp prio pct = .null ↔
      S (fracRelaxedLP tt sp prio pct) = none) ∧
    (∀ x, S (fracRelaxedLP tt sp prio pct) = some x →
      optimize_attendance_simplex S tt sp prio pct =
        .ok (buildFrac (mkClassList tt sp prio) x (requiredFrac tt pct))) := by
  have hlen : ¬ tt.length = 0 := by
    simpa [List.length_eq_zero] using h0
  rw [optimize_attendance_simplex, if_neg hlen, h1, if_pos h2]
  constructor
  · cases hr : S (fracRelaxedLP tt sp prio pct) with
    | none => simp [hr]
    | some x => simp [hr]
  · intro x hx
    rw [hx]

/-- Witness for C4 (amended) at the always-failing solver on `tt4`. -/
theorem c4_fractional_relaxation_witness :
    tt4 ≠ [] ∧ failSolver (fracBaseLP tt4 sp0 prio0 75) = none ∧
    instructorUbRows (mkClassList tt4 sp0 prio0) ≠ [] ∧
    ((optimize_attendance_simplex failSolver tt4 sp0 prio0 75 = .null ↔
      failSolver (fracRelaxedLP tt4 sp0 prio0 75) = none) ∧
    (∀ x, failSolver (fracRelaxedLP tt4 sp0 prio0 75) = some x →
      optimize_attendance_simplex failSolver tt4 sp0 prio0 75 =
        .ok (buildFrac (mkClassList tt4 sp0 prio0) x (requiredFrac tt4 75)))) :=
  ⟨by simp [tt4], rfl, by
    rw [instructorUbRows]
    simp [mkClassList, tt4, List.dedup, Session.instructorId],
   c4_fractional_relaxation failSolver tt4 sp0 prio0 75 (by simp [tt4]) rfl
     (by
       rw [instructorUbRows]
       simp [mkClassList, tt4, List.dedup, Session.instructorId])⟩

/-- Counterexample to C4: for the integer optimizer the first (root) solve
fails with an instructor-minimum row present — the base problem is genuinely
infeasible (target percent 0 forces `sum x = 0` against the instructor minimum
`sum x >= 2`) while the relaxed problem is feasible and solved by the solver —
yet `optimize_attendance_integer` returns `None` without ever retrying with
the instructor-minimum constraints dropped. -/
theorem c4_counterexample :
    noUbSolver (intBaseLP tt4 sp0 prio0 0) = none ∧
    instructorUbRows (mkClassList tt4 sp0 prio0) ≠ [] ∧
    ¬ LPFeasible (intBaseLP tt4 sp0 prio0 0) ∧
    LPFeasible (intRelaxedLP tt4 sp0 prio0 0) ∧
    noUbSolver (intRelaxedLP tt4 sp0 prio0 0) = some [0, 0] ∧
    optimize_attendance_integer noUbSolver 1 tt4 sp0 prio0 0 = none := by
  have hub : instructorUbRows (mkClassList tt4 sp0 prio0) =
      [(instrRow (mkClassList tt4 sp0 prio0) 1, -2)] := by
    rw [instructorUbRows]
    simp [mkClassList, tt4, List.dedup, Session.instructorId]
  have hreq : (requiredInt tt4 0 : ℚ) = 0 := by
    rw [requiredInt]
    norm_num [tt4, clampPct]
  refine ⟨?_, ?_, ?_, ?_, ?_, ?_⟩
  · rw [noUbSolver, intBaseLP, if_neg (by simp [hub])]
  · simp [hub]
  · rintro ⟨x, hlen, hubr, heq, hbd⟩
    have hL : x.length = 2 := by simpa [intBaseLP, tt4] using hlen
    obtain ⟨a, b, rfl⟩ := List.length_eq_two.mp hL
    have h1 : dot (instrRow (mkClassList tt4 sp0 prio0) 1) [a, b] ≤ -2 := by
      have := hubr (instrRow (mkClassList tt4 sp0 prio0) 1, -2)
        (by rw [intBaseLP]; simp only [hub]; exact List.mem_cons_self _ _)
      simpa using this
    have h2 : dot (List.replicate tt4.length (1 : ℚ)) [a, b] = (requiredInt tt4 0 : ℚ) := by
      have := heq (List.replicate tt4.length (1 : ℚ), (requiredInt tt4 0 : ℚ))
        (by rw [intBaseLP, intBaseEq]; exact List.mem_cons_self _ _)
      simpa using this
    have hd1 : dot (instrRow (mkClassList tt4 sp0 prio0) 1) [a, b] = -a + (-b + 0) := by
      rw [instrRow, mkClassList, tt4]
      simp [dot, Session.instructorId]
    have hd2 : dot (List.replicate tt4.length (1 : ℚ)) [a, b] = a + b := by
      rw [tt4]
      show dot [1, 1] [a, b] = a + b
      simp [dot]
    rw [hd1] at h1
    rw [hd2, hreq] at h2
    linarith
  · refine ⟨[0, 0], ?_, ?_, ?_, ?_⟩
    · simp [intRelaxedLP, intBaseLP, tt4]
    · intro r hr
      simp [intRelaxedLP] at hr
    · intro r hr
      rw [intRelaxedLP] at hr
      simp only [intBaseLP, intBaseEq, List.mem_singleton] at hr
      subst hr
      rw [hreq]
      show dot (List.replicate tt4.length (1 : ℚ)) [0, 0] = 0
      rw [tt4]
      show dot [1, 1] [0, 0] = 0
      simp [dot]
    · intro xi hxi
      have : xi = 0 := by
        rcases List.mem_cons.mp hxi with h | h
        · exact h
        · simpa using h
      simp [this]
  · rw [noUbSolver]
    rw [if_pos (by simp [intRelaxedLP, intBaseLP])]
    simp [intRelaxedLP, intBaseLP, tt4]
  · rw [optimize_attendance_integer, if_neg (by simp [tt4])]
    have hroot : intRootBnb noUbSolver tt4 sp0 prio0 0 1 = .done none := by
      rw [intRootBnb, bnb]
      have hS : noUbSolver ⟨negCosts (mkClassList tt4 sp0 prio0),
          instructorUbRows (mkClassList tt4 sp0 prio0) ++ [],
          intBaseEq tt4 0 ++ [], tt4.length⟩ = none := by
        rw [noUbSolver, if_neg (by simp [hub])]
      rw [hS]
    rw [hroot]

/-! ### C10: the fractional optimizer fails only on empty input -/

theorem clampPct_nonneg (pct : ℚ) : 0 ≤ clampPct pct := le_max_left 0 _

theorem clampPct_le (pct : ℚ) : clampPct pct ≤ 100 :=
  max_le (by norm_num) (min_le_left _ _)

/-- The uniform point `x_i = d_pct` is feasible for the relaxed fractional LP. -/
theorem fracRelaxed_feasible (tt : List Session) (sp : StudentProfile)
    (prio : Priorities) (pct : ℚ) :
    LPFeasible (fracRelaxedLP tt sp prio pct) := by
  refine ⟨List.replicate tt.length (clampPct pct / 100), ?_, ?_, ?_, ?_⟩
  · simp [fracRelaxedLP, fracBaseLP]
  · intro r hr
    simp [fracRelaxedLP] at hr
  · intro r hr
    rw [fracRelaxedLP] at hr
    simp only [fracBaseLP, List.mem_singleton] at hr
    subst hr
    calc dot (List.replicate tt.length (1:ℚ)) (List.replicate tt.length (clampPct pct / 100))
        = (List.replicate tt.length (clampPct pct / 100)).sum :=
          dot_replicate_one_of_length tt.length _ (List.length_replicate _ _)
      _ = requiredFrac tt pct := by
          rw [List.sum_replicate, requiredFrac, nsmul_eq_mul]
  · intro xi hxi
    have hx : xi = clampPct pct / 100 := List.eq_of_mem_replicate hxi
    subst hx
    constructor
    · exact div_nonneg (clampPct_nonneg pct) (by norm_num)
    · rw [div_le_one (by norm_num : (0:ℚ) < 100)]
      exact clampPct_le pct

/-- C10: for a complete solver, `optimize_attendance_simplex` returns `None`
exactly on the empty timetable; on any non-empty timetable the relaxed LP
(equality target plus `[0,1]` bounds, no instructor rows) is feasible and some
result is always produced — even when the instructor-minimum system is
infeasible. -/
theorem c10_fractional_null_iff_empty (S : Solver) (tt : List Session)
    (sp : StudentProfile) (prio : Priorities) (pct : ℚ)
    (hC : SolverComplete S) :
    (optimize_attendance_simplex S tt sp prio pct = .null ↔ tt = []) ∧
    (tt ≠ [] → LPFeasible (fracRelaxedLP tt sp prio pct) ∧
      ∃ r, optimize_attendance_simplex S tt sp prio pct = .ok r) := by
  rcases eq_or_ne tt [] with rfl | hne
  · constructor
    · rw [optimize_attendance_simplex]
      simp
    · intro h
      exact absurd rfl h
  · have hlen : ¬ tt.length = 0 := by
      simpa [List.length_eq_zero] using hne
    have hfeas := fracRelaxed_feasible tt sp prio pct
    have hok : ∃ r, optimize_attendance_simplex S tt sp prio pct = .ok r := by
      rw [optimize_attendance_simplex, if_neg hlen]
      cases h1 : S (fracBaseLP tt sp prio pct) with
      | some x => exact ⟨_, rfl⟩
      | none =>
        by_cases h2 : instructorUbRows (mkClassList tt sp prio) = []
        · exfalso
          have hub : (fracBaseLP tt sp prio pct).ubRows = [] := by
            rw [fracBaseLP]
            exact h2
          have hbase_eq : fracBaseLP tt sp prio pct = fracRelaxedLP tt sp prio pct := by
            rw [fracRelaxedLP]
            exact (linprog_drop_ub_eq _ hub).symm
          exact hC _ (hbase_eq ▸ hfeas) h1
        · rw [if_pos h2]
          cases h3 : S (fracRelaxedLP tt sp prio pct) with
          | some x => exact ⟨_, rfl⟩
          | none => exact absurd h3 (hC _ hfeas)
    constructor
    · constructor
      · intro hnull
        obtain ⟨r, hr⟩ := hok
        rw [hr] at hnull
        exact absurd hnull (by simp)
      · intro h
        exact absurd h hne
    · intro _
      exact ⟨hfeas, hok⟩

/-- Witness for C10: the always-succeeding solver on a one-session timetable
(complete: it never returns `none`). -/
theorem c10_fractional_null_iff_empty_witness :
    (optimize_attendance_simplex (fun lp => some (List.replicate lp.nvars 0))
        [⟨"Monday", 1, 1⟩] sp0 prio0 50 = .null ↔ ([⟨"Monday", 1, 1⟩] : List Session) = []) ∧
    (([⟨"Monday", 1, 1⟩] : List Session) ≠ [] →
      LPFeasible (fracRelaxedLP [⟨"Monday", 1, 1⟩] sp0 prio0 50) ∧
      ∃ r, optimize_attendance_simplex (fun lp => some (List.replicate lp.nvars 0))
        [⟨"Monday", 1, 1⟩] sp0 prio0 50 = .ok r) :=
  c10_fractional_null_iff_empty (fun lp => some (List.replicate lp.nvars 0))
    [⟨"Monday", 1, 1⟩] sp0 prio0 50 (fun _ _ h => by simp at h)

theorem mem_instructorUbRows (cl : List (Session × ℚ)) (iid : ℕ)
    (h : 2 ≤ (cl.filter (fun c => c.1.instructorId = iid)).length) :
    (instrRow cl iid, (-2 : ℚ)) ∈ instructorUbRows cl := by
  have hne : cl.filter (fun c => c.1.instructorId = iid) ≠ [] := by
    intro hnil
    rw [hnil] at h
    simp at h
  obtain ⟨c, hc⟩ := List.exists_mem_of_ne_nil _ hne
  have hc2 := List.mem_filter.mp hc
  have hmem : iid ∈ (cl.map (fun c => c.1.instructorId)).dedup := by
    rw [List.mem_dedup]
    exact List.mem_map.mpr ⟨c, hc2.1, by simpa using hc2.2⟩
  rw [instructorUbRows]
  exact List.mem_filterMap.mpr ⟨iid, hmem, by rw [if_pos h]⟩

theorem fracIndices_eq_nil (x : List ℚ) (h : fracIndices x = []) :
    ∀ xi ∈ x, |xi - ((round xi : ℤ) : ℚ)| ≤ 1/1000000 := by
  intro xi hxi
  rw [fracIndices, List.map_eq_nil_iff] at h
  have hfil := List.filter_eq_nil_iff.mp h
  have hpair : xi ∈ x.enum.map Prod.snd := by
    rw [List.enum_map_snd]
    exact hxi
  obtain ⟨p, hp, he⟩ := List.mem_map.mp hpair
  have hnot := hfil p hp
  rw [← he]
  by_contra hlt
  push_neg at hlt
  exact hnot (by simpa using hlt)

theorem good_update (cl : List (Session × ℚ)) (req : ℤ) (x : List ℚ)
    (hn : cl.length < 1000000)
    (hlen : x.length = cl.length)
    (hbdd : ∀ xi ∈ x, 0 ≤ xi ∧ xi ≤ 1)
    (hint : ∀ xi ∈ x, |xi - ((round xi : ℤ) : ℚ)| ≤ 1/1000000)
    (heq : dot (List.replicate cl.length 1) x = (req : ℚ))
    (hub : ∀ iid, 2 ≤ (cl.filter (fun c => c.1.instructorId = iid)).length →
      dot (instrRow cl iid) x ≤ -2) :
    GoodX cl req (x.map (fun xi => round xi)) := by
  have hnq : (cl.length : ℚ) * (1/1000000) < 1 := by
    have hcl : (cl.length : ℚ) < 1000000 := by exact_mod_cast hn
    calc (cl.length : ℚ) * (1/1000000) < 1000000 * (1/1000000) :=
          mul_lt_mul_of_pos_right hcl (by norm_num)
      _ = 1 := by norm_num
  have hsumx : x.sum = (req : ℚ) := by
    rw [← dot_replicate_one_of_length cl.length x hlen]
    exact heq
  refine ⟨by simp [hlen], ?_, ?_, ?_⟩
  · intro v hv
    obtain ⟨xi, hxi, rfl⟩ := List.mem_map.mp hv
    exact round_mem_unit (hbdd xi hxi).1 (hbdd xi hxi).2
  · have hcast : (((x.map (fun xi => round xi)).sum : ℤ) : ℚ) =
        (x.map (fun xi => ((round xi : ℤ) : ℚ))).sum := by
      rw [cast_list_sum_int, List.map_map]
      rfl
    have hdiff : (((x.map (fun xi => round xi)).sum : ℤ) : ℚ) - x.sum =
        (x.map (fun xi => ((round xi : ℤ) : ℚ) - xi)).sum := by
      rw [hcast]
      exact sum_map_sub_self x (fun xi => ((round xi : ℤ) : ℚ))
    have habs : |(((x.map (fun xi => round xi)).sum : ℤ) : ℚ) - x.sum| ≤
        (x.length : ℚ) * (1/1000000) := by
      rw [hdiff]
      apply abs_sum_map_le x _ _ (by norm_num)
      intro a ha
      rw [abs_sub_comm]
      exact hint a ha
    rw [hsumx, hlen] at habs
    have hlt1 : |(((x.map (fun xi => round xi)).sum : ℤ) : ℚ) - (req : ℚ)| < 1 :=
      lt_of_le_of_lt habs hnq
    have habs2 : |((x.map (fun xi => round xi)).sum - req : ℤ)| < 1 := by
      have h2 := hlt1
      rw [show (((x.map (fun xi => round xi)).sum : ℤ) : ℚ) - (req : ℚ) =
        (((x.map (fun xi => round xi)).sum - req : ℤ) : ℚ) by push_cast; ring] at h2
      exact_mod_cast h2
    rw [abs_lt] at habs2
    omega
  · intro iid hcnt
    have hrow := hub iid hcnt
    rw [dot_instrRow] at hrow
    have hfs : 2 ≤ (List.zipWith (fun (c : Session × ℚ) xi =>
        if c.1.instructorId = iid then xi else 0) cl x).sum := by linarith
    have hdec : decSum cl (x.map (fun xi => round xi)) iid =
        (List.zipWith (fun (c : Session × ℚ) xi =>
          if c.1.instructorId = iid then round xi else 0) cl x).sum := by
      rw [decSum, List.zipWith_map_right]
    have hcast : ((decSum cl (x.map (fun xi => round xi)) iid : ℤ) : ℚ) =
        (List.zipWith (fun (c : Session × ℚ) xi =>
          if c.1.instructorId = iid then ((round xi : ℤ) : ℚ) else 0) cl x).sum := by
      rw [hdec, cast_list_sum_int, List.map_zipWith]
      have hfun : (fun (c : Session × ℚ) (y : ℚ) =>
          ((if c.1.instructorId = iid then round y else 0 : ℤ) : ℚ)) =
          (fun (c : Session × ℚ) (xi : ℚ) =>
            if c.1.instructorId = iid then ((round xi : ℤ) : ℚ) else 0) := by
        funext c xi
        by_cases hc : c.1.instructorId = iid <;> simp [hc]
      rw [hfun]
    have hclose : |((decSum cl (x.map (fun xi => round xi)) iid : ℤ) : ℚ) -
        (List.zipWith (fun (c : Session × ℚ) xi =>
          if c.1.instructorId = iid then xi else 0) cl x).sum| ≤
        (cl.length : ℚ) * (1/1000000) := by
      rw [hcast]
      apply zipWith_sum_abs_le cl x _ _ _ (by norm_num)
      intro c hc xi hxi
      by_cases hcc : c.1.instructorId = iid
      · simp only [hcc, if_pos]
        rw [abs_sub_comm]
        exact hint xi hxi
      · simp [hcc]
    have hgt : ((decSum cl (x.map (fun xi => round xi)) iid : ℤ) : ℚ) > 1 := by
      have h1 := abs_le.mp hclose
      linarith [h1.1]
    have : (1 : ℤ) < decSum cl (x.map (fun xi => round xi)) iid := by exact_mod_cast hgt
    omega

/-- Every `best_solution` that a (fuel-bounded) `branch_and_bound` call
returns satisfies the invariant, because every LP it submits contains the base
equality row and all instructor-minimum rows, and only 1e-6-integral solutions
are recorded. -/
theorem bnb_good (S : Solver) (hS : SolverSound S) (cl : List (Session × ℚ))
    (req : ℤ) (c : List ℚ) (n : ℕ) (hncl : cl.length = n) (hnlt : n < 1000000) :
    ∀ fuel aU aE best best',
      GoodBest cl req best →
      bnb S c (instructorUbRows cl) [(List.replicate n 1, (req : ℚ))] n fuel aU aE best =
        .done best' →
      GoodBest cl req best' := by
  intro fuel
  induction fuel with
  | zero =>
    intro aU aE best best' hb h
    rw [bnb] at h
    exact absurd h (by simp)
  | succ fuel ih =>
    intro aU aE best best' hb h
    rw [bnb] at h
    cases hSx : S ⟨c, instructorUbRows cl ++ aU,
        [(List.replicate n 1, (req : ℚ))] ++ aE, n⟩ with
    | none =>
      rw [hSx] at h
      simp only [] at h
      cases h
      exact hb
    | some x =>
      rw [hSx] at h
      simp only [] at h
      by_cases hobj : -(dot c x) ≤ bestObj best + 1/1000000
      · rw [if_pos hobj] at h
        cases h
        exact hb
      · rw [if_neg hobj] at h
        by_cases hfrac : fracIndices x = []
        · rw [if_pos hfrac] at h
          have hsat := hS _ x hSx
          obtain ⟨hlen, hubr, heqr, hbdd⟩ := hsat
          have hgood : GoodX cl req (x.map (fun xi => round xi)) := by
            apply good_update cl req x (hncl ▸ hnlt) (by rw [hlen, hncl])
              hbdd (fracIndices_eq_nil x hfrac)
            · have := heqr (List.replicate n 1, (req : ℚ))
                (List.mem_append_left _ (List.mem_cons_self _ _))
              rw [hncl]
              simpa using this
            · intro iid hcnt
              have := hubr (instrRow cl iid, (-2 : ℚ))
                (List.mem_append_left _ (mem_instructorUbRows cl iid hcnt))
              simpa using this
          by_cases hlt : bestObj best < -(dot c x)
          · rw [if_pos hlt] at h
            cases h
            exact hgood
          · rw [if_neg hlt] at h
            cases h
            exact hb
        · rw [if_neg hfrac] at h
          -- h is the cut-step / branching composite
          rcases hcut : (if cutCond x then
              match S ⟨c, instructorUbRows cl ++ (aU ++ [(cutRow x n, cutRhs x)]),
                  [(List.replicate n 1, (req : ℚ))] ++ aE, n⟩ with
              | some _ => bnb S c (instructorUbRows cl)
                  [(List.replicate n 1, (req : ℚ))] n fuel
                  (aU ++ [(cutRow x n, cutRhs x)]) aE best
              | none => BnbRes.done best
            else BnbRes.done best) with _ | best1
          · rw [hcut] at h
            simp at h
          · rw [hcut] at h
            simp only [] at h
            have hb1 : GoodBest cl req best1 := by
              by_cases hcc : cutCond x
              · rw [if_pos hcc] at hcut
                cases hScut : S ⟨c, instructorUbRows cl ++ (aU ++ [(cutRow x n, cutRhs x)]),
                    [(List.replicate n 1, (req : ℚ))] ++ aE, n⟩ with
                | none =>
                  rw [hScut] at hcut
                  simp only [] at hcut
                  cases hcut
                  exact hb
                | some y =>
                  rw [hScut] at hcut
                  simp only [] at hcut
                  exact ih _ _ _ _ hb hcut
              · rw [if_neg hcc] at hcut
                cases hcut
                exact hb
            rcases hbr0 : bnb S c (instructorUbRows cl)
                [(List.replicate n 1, (req : ℚ))] n fuel
                (aU ++ [(mkUnitRow n (mostFractional x (fracIndices x)
                  ((fracIndices x).headD 0)), 0)]) aE best1 with _ | best2
            · rw [hbr0] at h
              simp at h
            · rw [hbr0] at h
              have hb2 : GoodBest cl req best2 := ih _ _ _ _ hb1 hbr0
              exact ih _ _ _ _ hb2 h

/-- Unpacking `optimize_attendance_integer ... = some res`: the returned
record comes from a `GoodX` vector. -/
theorem optimize_integer_inversion (S : Solver) (hS : SolverSound S)
    (fuel : ℕ) (tt : List Session) (sp : StudentProfile) (prio : Priorities)
    (pct : ℚ) (res : IntResult) (hn : tt.length < 1000000)
    (h : optimize_attendance_integer S fuel tt sp prio pct = some res) :
    ∃ obj xInt, GoodX (mkClassList tt sp prio) (requiredInt tt pct) xInt ∧
      res = { selection := ((mkClassList tt sp prio).zip xInt).map mkIntEntry,
              totalClassesWeek := tt.length,
              requiredClassesWeek := requiredInt tt pct,
              selectedWeek := ((((mkClassList tt sp prio).zip xInt).map mkIntEntry).map
                (fun e => e.selected)).sum,
              totalValue := round3 (((((mkClassList tt sp prio).zip xInt).map mkIntEntry).map
                (fun e => e.aps_contrib)).sum),
              avgValue := if 0 < ((((mkClassList tt sp prio).zip xInt).map mkIntEntry).map
                  (fun e => e.selected)).sum
                then round3 ((((((mkClassList tt sp prio).zip xInt).map mkIntEntry).map
                  (fun e => e.aps_contrib)).sum) /
                  ((((((mkClassList tt sp prio).zip xInt).map mkIntEntry).map
                    (fun e => e.selected)).sum : ℤ) : ℚ))
                else 0,
              optimalObj := obj } := by
  rw [optimize_attendance_integer] at h
  by_cases h0 : tt.length = 0
  · rw [if_pos h0] at h
    exact absurd h (by simp)
  · rw [if_neg h0] at h
    rcases hroot : intRootBnb S tt sp prio pct fuel with _ | best
    · rw [hroot] at h
      simp at h
    · rw [hroot] at h
      rcases best with _ | ⟨obj, xInt⟩
      · simp at h
      · simp only [] at h
        have hcl_len : (mkClassList tt sp prio).length = tt.length := by
          rw [mkClassList, List.length_map]
        have hroot2 : bnb S (negCosts (mkClassList tt sp prio))
            (instructorUbRows (mkClassList tt sp prio))
            [(List.replicate tt.length 1, (requiredInt tt pct : ℚ))]
            tt.length fuel [] [] none = .done (some (obj, xInt)) := by
          rw [← hroot, intRootBnb, intBaseEq]
        have hgood : GoodBest (mkClassList tt sp prio) (requiredInt tt pct)
            (some (obj, xInt)) :=
          bnb_good S hS (mkClassList tt sp prio) (requiredInt tt pct)
            (negCosts (mkClassList tt sp prio)) tt.length hcl_len hn fuel [] [] none
            (some (obj, xInt)) trivial hroot2
        refine ⟨obj, xInt, hgood, ?_⟩
        cases h
        rfl

/-- The selected decisions of the packaged selection are exactly `xInt`. -/
theorem selection_map_selected (cl : List (Session × ℚ)) (xInt : List ℤ)
    (hlen : xInt.length = cl.length) :
    ((cl.zip xInt).map mkIntEntry).map (fun e => e.selected) = xInt := by
  rw [List.map_map]
  have hcomp : ((fun e : IntEntry => e.selected) ∘ mkIntEntry) =
      (fun cv : (Session × ℚ) × ℤ => cv.2) := rfl
  rw [hcomp]
  have := List.map_snd_zip cl xInt (le_of_eq hlen)
  simpa using this

/-- C1: whenever the integer optimizer returns a result (for a sound solver
on a non-empty timetable), every per-session decision is exactly 0 or 1 and
the decisions sum to `ceil(N * clampedTargetPercent / 100)`. -/
theorem c1_integer_binary_and_sum (S : Solver) (fuel : ℕ) (tt : List Session)
    (sp : StudentProfile) (prio : Priorities) (pct : ℚ) (res : IntResult)
    (hS : SolverSound S) (hn : tt.length < 1000000) (hk : keysNodup tt)
    (h : optimize_attendance_integer S fuel tt sp prio pct = some res) :
    (∀ e ∈ res.selection, e.selected = 0 ∨ e.selected = 1) ∧
    (res.selection.map (fun e => e.selected)).sum =
      ⌈(tt.length : ℚ) * (clampPct pct / 100)⌉ := by
  obtain ⟨obj, xInt, ⟨hlen, hbin, hsum, _⟩, rfl⟩ :=
    optimize_integer_inversion S hS fuel tt sp prio pct res hn h
  have hcl_len : (mkClassList tt sp prio).length = tt.length := by
    rw [mkClassList, List.length_map]
  constructor
  · intro e he
    obtain ⟨cv, hcv, rfl⟩ := List.mem_map.mp he
    have hv : cv.2 ∈ xInt := (List.mem_zip hcv).2
    exact hbin cv.2 hv
  · rw [selection_map_selected _ _ (by rw [hlen]), hsum, requiredInt]

theorem instrCount_cl (tt : List Session) (sp : StudentProfile)
    (prio : Priorities) (iid : ℕ) :
    ((mkClassList tt sp prio).filter (fun c => c.1.instructorId = iid)).length =
      instrCountTT tt iid := by
  rw [mkClassList, instrCountTT, List.filter_map, List.length_map]
  rfl

/-- The per-instructor decision sum read off the packaged selection equals
`decSum`. -/
theorem selection_instr_sum (cl : List (Session × ℚ)) (xInt : List ℤ) (iid : ℕ) :
    ((((cl.zip xInt).map mkIntEntry).filter
      (fun e => e.session.instructorId = iid)).map (fun e => e.selected)).sum =
    decSum cl xInt iid := by
  induction cl generalizing xInt with
  | nil => rfl
  | cons c t ih =>
    cases xInt with
    | nil => rfl
    | cons v vs =>
      have hstep : decSum (c :: t) (v :: vs) iid =
          (if c.1.instructorId = iid then v else 0) + decSum t vs iid := by
        simp [decSum]
      rw [hstep, ← ih vs]
      by_cases hc : c.1.instructorId = iid
      · simp [mkIntEntry, hc]
      · simp [mkIntEntry, hc]

/-- C5 (amended): for a sound solver, (a) in the fractional model, whenever
the first solve succeeded (so no relaxation retry happened), the *unrounded*
solver fractions of every instructor with at least two weekly sessions sum to
at least 2 (the 3-decimal reported fractions can fall below 2 by at most
0.0005 per session, see the counterexample); (b) in the integer model, every
returned selection gives such an instructor at least 2 attended sessions. -/
theorem c5_instructor_minimum (S : Solver) (tt : List Session)
    (sp : StudentProfile) (prio : Priorities) (pct : ℚ)
    (hS : SolverSound S) (hn : tt.length < 1000000) (hk : keysNodup tt) :
    (∀ x, S (fracBaseLP tt sp prio pct) = some x →
      ∀ iid, 2 ≤ instrCountTT tt iid →
        2 ≤ instrFracSum (mkClassList tt sp prio) x iid) ∧
    (∀ fuel res, optimize_attendance_integer S fuel tt sp prio pct = some res →
      ∀ iid, 2 ≤ instrCountTT tt iid →
        2 ≤ ((res.selection.filter (fun e => e.session.instructorId = iid)).map
          (fun e => e.selected)).sum) := by
  constructor
  · intro x hx iid hcnt
    have hsat := hS _ x hx
    obtain ⟨_, hubr, _, _⟩ := hsat
    have hcnt' : 2 ≤ ((mkClassList tt sp prio).filter
        (fun c => c.1.instructorId = iid)).length := by
      rw [instrCount_cl]
      exact hcnt
    have hmem : (instrRow (mkClassList tt sp prio) iid, (-2 : ℚ)) ∈
        (fracBaseLP tt sp prio pct).ubRows := by
      rw [fracBaseLP]
      exact mem_instructorUbRows _ _ hcnt'
    have hrow := hubr _ hmem
    have hrow2 : dot (instrRow (mkClassList tt sp prio) iid) x ≤ -2 := by
      simpa using hrow
    rw [dot_instrRow] at hrow2
    rw [instrFracSum]
    linarith
  · intro fuel res h iid hcnt
    obtain ⟨obj, xInt, ⟨_, _, _, hinstr⟩, rfl⟩ :=
      optimize_integer_inversion S hS fuel tt sp prio pct res hn h
    have hcnt' : 2 ≤ ((mkClassList tt sp prio).filter
        (fun c => c.1.instructorId = iid)).length := by
      rw [instrCount_cl]
      exact hcnt
    have := hinstr iid hcnt'
    rw [selection_instr_sum]
    exact this

/-! ### C9: the reported total value is the utility sum of the selection -/

theorem aps_thousandth (i : ℕ) (b : String) (sp : StudentProfile)
    (p : Priorities) : Thousandth (calculate_aps i b sp p) := by
  rw [calculate_aps]
  cases find_professor i with
  | none => exact ⟨0, by norm_num⟩
  | some prof => exact round3_thousandth _

theorem round3_zero : round3 0 = 0 := by
  rw [round3]
  norm_num

/-- The rounded per-session contributions of a 0/1 selection sum to the plain
APS sum over the selected sessions. -/
theorem contrib_filter_sum (cl : List (Session × ℚ)) (xInt : List ℤ)
    (hbin : ∀ v ∈ xInt, v = 0 ∨ v = 1) (hth : ∀ cc ∈ cl, Thousandth cc.2) :
    (((cl.zip xInt).map mkIntEntry).map (fun e => e.aps_contrib)).sum =
    ((((cl.zip xInt).map mkIntEntry).filter (fun e => e.selected = 1)).map
      (fun e => e.aps)).sum := by
  induction cl generalizing xInt with
  | nil => rfl
  | cons c t ih =>
    cases xInt with
    | nil => rfl
    | cons v vs =>
      have hv := hbin v (List.mem_cons_self v vs)
      have hbin' : ∀ w ∈ vs, w = 0 ∨ w = 1 :=
        fun w hw => hbin w (List.mem_cons_of_mem v hw)
      have hth_c : Thousandth c.2 := hth c (List.mem_cons_self c t)
      have hth' : ∀ cc ∈ t, Thousandth cc.2 :=
        fun cc hcc => hth cc (List.mem_cons_of_mem c hcc)
      rcases hv with rfl | rfl
      · simp only [List.zip_cons_cons, List.map_cons, List.sum_cons, List.filter_cons]
        rw [ih vs hbin' hth']
        have hcz : (mkIntEntry (c, 0)).aps_contrib = 0 := by
          simp only [mkIntEntry, Int.cast_zero, mul_zero]
          exact round3_zero
        have hsel : (mkIntEntry (c, 0)).selected = 1 ↔ False := by
          simp [mkIntEntry]
        rw [hcz]
        simp [mkIntEntry]
      · simp only [List.zip_cons_cons, List.map_cons, List.sum_cons, List.filter_cons]
        rw [ih vs hbin' hth']
        have hco : (mkIntEntry (c, 1)).aps_contrib = c.2 := by
          simp only [mkIntEntry, Int.cast_one, mul_one]
          exact round3_eq_self hth_c
        rw [hco]
        simp [mkIntEntry]

/-- Every aps value in the class list is the recomputed scorer output of its
session, and a multiple of 1/1000. -/
theorem mkClassList_aps (tt : List Session) (sp : StudentProfile)
    (prio : Priorities) : ∀ cc ∈ mkClassList tt sp prio,
      cc.2 = calculate_aps cc.1.instructorId (blockOf cc.1.slotId) sp prio := by
  intro cc hcc
  rw [mkClassList] at hcc
  obtain ⟨s, _, rfl⟩ := List.mem_map.mp hcc
  rfl

/-- C9: the reported `totalValue` of every integer-optimizer result equals the
direct APS sum (recomputed by the scorer) over exactly the selected sessions. -/
theorem c9_totalValue_roundtrip (S : Solver) (fuel : ℕ) (tt : List Session)
    (sp : StudentProfile) (prio : Priorities) (pct : ℚ) (res : IntResult)
    (hS : SolverSound S) (hn : tt.length < 1000000) (hk : keysNodup tt)
    (h : optimize_attendance_integer S fuel tt sp prio pct = some res) :
    res.totalValue = ((res.selection.filter (fun e => e.selected = 1)).map
      (fun e => calculate_aps e.session.instructorId (blockOf e.session.slotId)
        sp prio)).sum := by
  obtain ⟨obj, xInt, ⟨hlen, hbin, hsum, _⟩, rfl⟩ :=
    optimize_integer_inversion S hS fuel tt sp prio pct res hn h
  have hth : ∀ cc ∈ mkClassList tt sp prio, Thousandth cc.2 := by
    intro cc hcc
    rw [mkClassList_aps tt sp prio cc hcc]
    exact aps_thousandth _ _ _ _
  have hstep1 : ((((mkClassList tt sp prio).zip xInt).map mkIntEntry).map
      (fun e => e.aps_contrib)).sum =
      (((((mkClassList tt sp prio).zip xInt).map mkIntEntry).filter
        (fun e => e.selected = 1)).map (fun e => e.aps)).sum :=
    contrib_filter_sum _ _ hbin hth
  have hth2 : ∀ q ∈ (((mkClassList tt sp prio).zip xInt).map mkIntEntry).map
      (fun e => e.aps_contrib), Thousandth q := by
    intro q hq
    obtain ⟨e, he, rfl⟩ := List.mem_map.mp hq
    obtain ⟨cv, _, rfl⟩ := List.mem_map.mp he
    exact round3_thousandth _
  have hround : round3 (((((mkClassList tt sp prio).zip xInt).map mkIntEntry).map
      (fun e => e.aps_contrib)).sum) =
      ((((mkClassList tt sp prio).zip xInt).map mkIntEntry).map
        (fun e => e.aps_contrib)).sum :=
    round3_eq_self (thousandth_list_sum _ hth2)
  have haps_eq : ∀ e ∈ (((mkClassList tt sp prio).zip xInt).map mkIntEntry).filter
      (fun e => e.selected = 1),
      e.aps = calculate_aps e.session.instructorId (blockOf e.session.slotId) sp prio := by
    intro e he
    have he2 := (List.mem_filter.mp he).1
    obtain ⟨cv, hcv, rfl⟩ := List.mem_map.mp he2
    have hcl : cv.1 ∈ mkClassList tt sp prio := (List.mem_zip hcv).1
    have := mkClassList_aps tt sp prio cv.1 hcl
    simpa [mkIntEntry] using this
  calc round3 (((((mkClassList tt sp prio).zip xInt).map mkIntEntry).map
        (fun e => e.aps_contrib)).sum)
      = ((((mkClassList tt sp prio).zip xInt).map mkIntEntry).map
        (fun e => e.aps_contrib)).sum := hround
    _ = (((((mkClassList tt sp prio).zip xInt).map mkIntEntry).filter
        (fun e => e.selected = 1)).map (fun e => e.aps)).sum := hstep1
    _ = (((((mkClassList tt sp prio).zip xInt).map mkIntEntry).filter
        (fun e => e.selected = 1)).map
          (fun e => calculate_aps e.session.instructorId (blockOf e.session.slotId)
            sp prio)).sum := List.map_congr_left haps_eq ▸ rfl

theorem satSolver_sound : SolverSound satSolver := by
  intro lp x h
  rw [satSolver] at h
  by_cases hs : Satisfies lp [1, 1]
  · rw [if_pos hs] at h
    cases h
    exact hs
  · rw [if_neg hs] at h
    cases h

theorem apsW (b : String) : calculate_aps 99 b sp0 prio0 = 0 := by
  rw [calculate_aps, show find_professor 99 = none by decide]

theorem clW : mkClassList ttW sp0 prio0 =
    [(⟨"Monday", 1, 99⟩, 0), (⟨"Monday", 2, 99⟩, 0)] := by
  rw [mkClassList, ttW]
  simp [apsW]

theorem negCostsW : negCosts (mkClassList ttW sp0 prio0) = [0, 0] := by
  rw [negCosts, clW]
  norm_num

theorem ubRowsW : instructorUbRows (mkClassList ttW sp0 prio0) =
    [([-1, -1], -2)] := by
  rw [instructorUbRows, clW]
  simp [List.dedup, instrRow]

theorem reqW : requiredInt ttW 100 = 2 := by
  rw [requiredInt, clampPct]
  norm_num [ttW]

theorem eqRowsW : intBaseEq ttW 100 = [([1, 1], 2)] := by
  rw [intBaseEq, reqW]
  norm_num [ttW, List.replicate]

theorem satW : Satisfies ⟨negCosts (mkClassList ttW sp0 prio0),
    instructorUbRows (mkClassList ttW sp0 prio0) ++ [],
    intBaseEq ttW 100 ++ [], ttW.length⟩ [1, 1] := by
  rw [negCostsW, ubRowsW, eqRowsW]
  refine ⟨by simp [ttW], ?_, ?_, ?_⟩
  · intro r hr
    simp only [List.append_nil, List.mem_singleton] at hr
    subst hr
    norm_num [dot]
  · intro r hr
    simp only [List.append_nil, List.mem_singleton] at hr
    subst hr
    norm_num [dot]
  · intro xi hxi
    have : xi = 1 := by
      rcases List.mem_cons.mp hxi with h | h
      · exact h
      · simpa using h
    simp [this]

theorem fracIndicesW : fracIndices ([1, 1] : List ℚ) = [] := by
  rw [fracIndices]
  norm_num [List.enum, List.enumFrom, List.filter, round_one]

theorem rootW : intRootBnb satSolver ttW sp0 prio0 100 1 = .done (some (0, [1, 1])) := by
  rw [intRootBnb]
  rw [show (1 : ℕ) = 0 + 1 from rfl, bnb]
  rw [show satSolver ⟨negCosts (mkClassList ttW sp0 prio0),
      instructorUbRows (mkClassList ttW sp0 prio0) ++ [],
      intBaseEq ttW 100 ++ [], ttW.length⟩ = some [1, 1] from by
    rw [satSolver, if_pos satW]]
  simp only []
  have hdot : dot (negCosts (mkClassList ttW sp0 prio0)) [1, 1] = 0 := by
    rw [negCostsW]
    norm_num [dot]
  rw [if_neg (by rw [hdot]; norm_num [bestObj])]
  rw [if_pos fracIndicesW]
  rw [if_pos (by rw [hdot]; norm_num [bestObj])]
  rw [hdot]
  norm_num [round_one]

theorem intRunEval :
    optimize_attendance_integer satSolver 1 ttW sp0 prio0 100 = some resW := by
  rw [optimize_attendance_integer, if_neg (by simp [ttW])]
  rw [rootW]
  simp only []
  rw [clW, reqW]
  norm_num [resW, mkIntEntry, ttW, round3_zero]

/-- Witness for C1 at the concrete run. -/
theorem c1_integer_binary_and_sum_witness :
    (∀ e ∈ resW.selection, e.selected = 0 ∨ e.selected = 1) ∧
    (resW.selection.map (fun e => e.selected)).sum =
      ⌈(ttW.length : ℚ) * (clampPct 100 / 100)⌉ :=
  c1_integer_binary_and_sum satSolver 1 ttW sp0 prio0 100 resW satSolver_sound
    (by decide) (by decide) intRunEval

/-- Witness for C5 (amended) at the concrete run. -/
theorem c5_instructor_minimum_witness :
    (∀ x, satSolver (fracBaseLP ttW sp0 prio0 100) = some x →
      ∀ iid, 2 ≤ instrCountTT ttW iid →
        2 ≤ instrFracSum (mkClassList ttW sp0 prio0) x iid) ∧
    (∀ fuel res, optimize_attendance_integer satSolver fuel ttW sp0 prio0 100 = some res →
      ∀ iid, 2 ≤ instrCountTT ttW iid →
        2 ≤ ((res.selection.filter (fun e => e.session.instructorId = iid)).map
          (fun e => e.selected)).sum) :=
  c5_instructor_minimum satSolver ttW sp0 prio0 100 satSolver_sound
    (by decide) (by decide)

/-- Witness for C9 at the concrete run. -/
theorem c9_totalValue_roundtrip_witness :
    resW.totalValue = ((resW.selection.filter (fun e => e.selected = 1)).map
      (fun e => calculate_aps e.session.instructorId (blockOf e.session.slotId)
        sp0 prio0)).sum :=
  c9_totalValue_roundtrip satSolver 1 ttW sp0 prio0 100 resW satSolver_sound
    (by decide) (by decide) intRunEval

/-! ### C2: fractional result bounds and sum -/

/-- Core packaging facts shared by both solve paths of the fractional
optimizer. -/
theorem buildFrac_core (tt : List Session) (sp : StudentProfile)
    (prio : Priorities) (pct : ℚ) (x : List ℚ)
    (hlen : x.length = tt.length) (hbdd : ∀ xi ∈ x, 0 ≤ xi ∧ xi ≤ 1)
    (hsum : x.sum = requiredFrac tt pct) :
    (∀ e ∈ (buildFrac (mkClassList tt sp prio) x (requiredFrac tt pct)).fractions,
      0 ≤ e.fraction ∧ e.fraction ≤ 1) ∧
    |((buildFrac (mkClassList tt sp prio) x (requiredFrac tt pct)).fractions.map
      (fun e => e.fraction)).sum - requiredFrac tt pct| ≤ (tt.length : ℚ) * (1/2000) := by
  have hcl_len : (mkClassList tt sp prio).length = tt.length := by
    rw [mkClassList, List.length_map]
  have hfr : (buildFrac (mkClassList tt sp prio) x (requiredFrac tt pct)).fractions =
      ((mkClassList tt sp prio).zip x).map mkFracEntry := by
    rw [buildFrac]
  have hmapfr : ((buildFrac (mkClassList tt sp prio) x (requiredFrac tt pct)).fractions.map
      (fun e => e.fraction)) = x.map round3 := by
    rw [hfr, List.map_map]
    have hcomp : ((fun e : FracEntry => e.fraction) ∘ mkFracEntry) =
        ((fun v : ℚ => round3 v) ∘ Prod.snd) := rfl
    rw [hcomp, ← List.map_map]
    rw [List.map_snd_zip _ _ (by rw [hlen, hcl_len])]
  constructor
  · intro e he
    rw [hfr] at he
    obtain ⟨cv, hcv, rfl⟩ := List.mem_map.mp he
    have hx : cv.2 ∈ x := (List.mem_zip hcv).2
    exact round3_mem_unit (hbdd cv.2 hx).1 (hbdd cv.2 hx).2
  · rw [hmapfr, ← hsum]
    have hd : (x.map round3).sum - x.sum = (x.map (fun a => round3 a - a)).sum :=
      sum_map_sub_self x round3
    rw [hd]
    have := abs_sum_map_le x (fun a => round3 a - a) (1/2000) (by norm_num)
      (fun a _ => abs_round3_sub a)
    rw [hlen] at this
    exact this

/-- C2 (amended): for a sound solver, every reported fraction of a fractional
result lies in [0,1], and the sum of the 3-decimal reported fractions equals
`N * clampedPercent / 100` within `N * 0.0005` — the rounding slack of the
reported values; the unrounded solver fractions sum to the target exactly, but
the 1e-6 tolerance claimed for the reported sum fails (see counterexample). -/
theorem c2_fractional_bounds_and_sum (S : Solver) (tt : List Session)
    (sp : StudentProfile) (prio : Priorities) (pct : ℚ) (res : FracResult)
    (hS : SolverSound S) (hk : keysNodup tt)
    (h : optimize_attendance_simplex S tt sp prio pct = .ok res) :
    (∀ e ∈ res.fractions, 0 ≤ e.fraction ∧ e.fraction ≤ 1) ∧
    |(res.fractions.map (fun e => e.fraction)).sum - requiredFrac tt pct| ≤
      (tt.length : ℚ) * (1/2000) := by
  rw [optimize_attendance_simplex] at h
  by_cases h0 : tt.length = 0
  · rw [if_pos h0] at h
    exact absurd h (by simp)
  · rw [if_neg h0] at h
    have main : ∀ x, Satisfies (fracBaseLP tt sp prio pct) x ∨
        Satisfies (fracRelaxedLP tt sp prio pct) x →
        res = buildFrac (mkClassList tt sp prio) x (requiredFrac tt pct) →
        (∀ e ∈ res.fractions, 0 ≤ e.fraction ∧ e.fraction ≤ 1) ∧
        |(res.fractions.map (fun e => e.fraction)).sum - requiredFrac tt pct| ≤
          (tt.length : ℚ) * (1/2000) := by
      intro x hsat hres
      have hlen : x.length = tt.length := by
        rcases hsat with ⟨hl, _, _, _⟩ | ⟨hl, _, _, _⟩
        · simpa [fracBaseLP] using hl
        · simpa [fracRelaxedLP, fracBaseLP] using hl
      have hbdd : ∀ xi ∈ x, 0 ≤ xi ∧ xi ≤ 1 := by
        rcases hsat with ⟨_, _, _, hb⟩ | ⟨_, _, _, hb⟩ <;> exact hb
      have hsum : x.sum = requiredFrac tt pct := by
        have heqr : dot (List.replicate tt.length 1) x = requiredFrac tt pct := by
          rcases hsat with ⟨_, _, he, _⟩ | ⟨_, _, he, _⟩
          · have := he (List.replicate tt.length (1:ℚ), requiredFrac tt pct)
              (by rw [fracBaseLP]; exact List.mem_cons_self _ _)
            simpa using this
          · have := he (List.replicate tt.length (1:ℚ), requiredFrac tt pct)
              (by rw [fracRelaxedLP]; simp only [fracBaseLP]; exact List.mem_cons_self _ _)
            simpa using this
        rw [← dot_replicate_one_of_length tt.length x hlen]
        exact heqr
      rw [hres]
      exact buildFrac_core tt sp prio pct x hlen hbdd hsum
    cases h1 : S (fracBaseLP tt sp prio pct) with
    | some x =>
      rw [h1] at h
      simp only [] at h
      cases h
      exact main x (Or.inl (hS _ x h1)) rfl
    | none =>
      rw [h1] at h
      simp only [] at h
      by_cases h2 : instructorUbRows (mkClassList tt sp prio) = []
      · rw [if_neg (by simpa using h2)] at h
        exact absurd h (by simp)
      · rw [if_pos (by simpa using h2)] at h
        cases h3 : S (fracRelaxedLP tt sp prio pct) with
        | some x =>
          rw [h3] at h
          simp only [] at h
          cases h
          exact main x (Or.inr (hS _ x h3)) rfl
        | none =>
          rw [h3] at h
          exact absurd h (by simp)

theorem S2_sat : Satisfies (fracBaseLP tt2 sp0 prio0 (1/100)) [1/10000] := by
  refine ⟨by simp [fracBaseLP, tt2], ?_, ?_, ?_⟩
  · intro r hr
    rw [fracBaseLP] at hr
    rw [show instructorUbRows (mkClassList tt2 sp0 prio0) = [] from by
      rw [instructorUbRows]
      simp [mkClassList, tt2, List.dedup]] at hr
    simp at hr
  · intro r hr
    rw [fracBaseLP] at hr
    simp only [List.mem_singleton] at hr
    subst hr
    rw [show requiredFrac tt2 (1/100) = 1/10000 from by
      rw [requiredFrac, clampPct]; norm_num [tt2]]
    norm_num [tt2, dot, List.replicate]
  · intro xi hxi
    have : xi = 1/10000 := by simpa using hxi
    rw [this]
    norm_num

theorem S2_sound : SolverSound S2 := by
  intro lp x h
  rw [S2] at h
  by_cases hc : lp = fracBaseLP tt2 sp0 prio0 (1/100)
  · rw [if_pos hc] at h
    cases h
    rw [hc]
    exact S2_sat
  · rw [if_neg hc] at h
    cases h

/-- Counterexample to C2: the solver returns the exact optimum `[0.0001]`
(target 0.01 percent of one session), but the *reported* fraction is rounded
to 3 decimals, so the reported sum is 0, off the target by 1e-4 > 1e-6. -/
theorem c2_counterexample :
    SolverSound S2 ∧
    optimize_attendance_simplex S2 tt2 sp0 prio0 (1/100) = .ok res2 ∧
    ¬ (|(res2.fractions.map (fun e => e.fraction)).sum -
        (tt2.length : ℚ) * (clampPct (1/100) / 100)| ≤ 1/1000000) := by
  refine ⟨S2_sound, ?_, ?_⟩
  · rw [optimize_attendance_simplex, if_neg (by simp [tt2])]
    rw [show S2 (fracBaseLP tt2 sp0 prio0 (1/100)) = some [1/10000] from by
      rw [S2, if_pos rfl]]
    rfl
  · have hfr : res2.fractions =
        [mkFracEntry ((⟨"Monday", 1, 1⟩, calculate_aps 1 (blockOf 1) sp0 prio0),
          1/10000)] := by
      rw [res2, buildFrac]
      simp only []
      rw [mkClassList, tt2]
      rfl
    rw [hfr]
    have hround : (mkFracEntry ((⟨"Monday", 1, 1⟩,
        calculate_aps 1 (blockOf 1) sp0 prio0), 1/10000)).fraction = 0 := by
      rw [mkFracEntry]
      simp only []
      rw [round3]
      norm_num [round_eq]
    simp only [List.map_cons, List.map_nil, List.sum_cons, List.sum_nil, hround]
    rw [clampPct]
    norm_num [tt2]
    rw [abs_of_nonneg (by norm_num : (0:ℚ) ≤ 1/10000)]
    norm_num

/-- The `[1, 1]` vector is feasible for the fractional base LP of the witness
run (target 100 percent). -/
theorem satWfrac : Satisfies (fracBaseLP ttW sp0 prio0 100) [1, 1] := by
  refine ⟨by simp [fracBaseLP, ttW], ?_, ?_, ?_⟩
  · intro r hr
    rw [fracBaseLP] at hr
    rw [ubRowsW] at hr
    simp only [List.mem_singleton] at hr
    subst hr
    norm_num [dot]
  · intro r hr
    rw [fracBaseLP] at hr
    simp only [List.mem_singleton] at hr
    subst hr
    rw [show requiredFrac ttW 100 = 2 from by
      rw [requiredFrac, clampPct]; norm_num [ttW]]
    norm_num [ttW, dot, List.replicate]
  · intro xi hxi
    have : xi = 1 := by
      rcases List.mem_cons.mp hxi with h | h
      · exact h
      · simpa using h
    simp [this]

theorem fracRunEval : optimize_attendance_simplex satSolver ttW sp0 prio0 100 =
    .ok (buildFrac (mkClassList ttW sp0 prio0) [1, 1] (requiredFrac ttW 100)) := by
  rw [optimize_attendance_simplex, if_neg (by simp [ttW])]
  rw [show satSolver (fracBaseLP ttW sp0 prio0 100) = some [1, 1] from by
    rw [satSolver, if_pos satWfrac]]

/-- Witness for C2 (amended) at the concrete fractional run. -/
theorem c2_fractional_bounds_and_sum_witness :
    (∀ e ∈ (buildFrac (mkClassList ttW sp0 prio0) [1, 1]
        (requiredFrac ttW 100)).fractions, 0 ≤ e.fraction ∧ e.fraction ≤ 1) ∧
    |((buildFrac (mkClassList ttW sp0 prio0) [1, 1]
        (requiredFrac ttW 100)).fractions.map (fun e => e.fraction)).sum -
      requiredFrac ttW 100| ≤ (ttW.length : ℚ) * (1/2000) :=
  c2_fractional_bounds_and_sum satSolver ttW sp0 prio0 100
    (buildFrac (mkClassList ttW sp0 prio0) [1, 1] (requiredFrac ttW 100))
    satSolver_sound (by decide) fracRunEval

theorem ubRows5 : instructorUbRows (mkClassList tt5 sp0 prio0) =
    [([-1, -1, -1, 0], -2)] := by
  have hded : ((mkClassList tt5 sp0 prio0).map (fun c => c.1.instructorId)).dedup =
      [1, 2] := by
    have hm : (mkClassList tt5 sp0 prio0).map (fun c => c.1.instructorId) =
        [1, 1, 1, 2] := by
      simp [mkClassList, tt5]
    rw [hm]
    decide
  have hfil1 : ((mkClassList tt5 sp0 prio0).filter
      (fun c => c.1.instructorId = 1)).length = 3 := by
    simp [mkClassList, tt5, List.filter_cons]
  have hfil2 : ((mkClassList tt5 sp0 prio0).filter
      (fun c => c.1.instructorId = 2)).length = 1 := by
    simp [mkClassList, tt5, List.filter_cons]
  have hrow : instrRow (mkClassList tt5 sp0 prio0) 1 = [-1, -1, -1, 0] := by
    simp [instrRow, mkClassList, tt5]
  rw [instructorUbRows, hded, List.filterMap_cons]
  rw [if_pos (by rw [hfil1]; norm_num)]
  rw [List.filterMap_cons]
  rw [if_neg (by rw [hfil2]; norm_num)]
  rw [hrow]
  rfl

theorem S5_sat : Satisfies (fracBaseLP tt5 sp0 prio0 75) x5 := by
  refine ⟨by rw [x5]; simp [fracBaseLP, tt5], ?_, ?_, ?_⟩
  · intro r hr
    rw [fracBaseLP, ubRows5] at hr
    simp only [List.mem_singleton] at hr
    subst hr
    rw [x5]
    norm_num [dot]
  · intro r hr
    rw [fracBaseLP] at hr
    simp only [List.mem_singleton] at hr
    subst hr
    rw [show requiredFrac tt5 75 = 3 from by
      rw [requiredFrac, clampPct]; norm_num [tt5]]
    rw [x5]
    norm_num [tt5, dot, List.replicate]
  · intro xi hxi
    rw [x5] at hxi
    rcases List.mem_cons.mp hxi with h | h
    · rw [h]; norm_num
    · rcases List.mem_cons.mp h with h | h
      · rw [h]; norm_num
      · rcases List.mem_cons.mp h with h | h
        · rw [h]; norm_num
        · have : xi = 1 := by simpa using h
          rw [this]; norm_num

theorem S5_sound : SolverSound S5 := by
  intro lp x h
  rw [S5] at h
  by_cases hc : lp = fracBaseLP tt5 sp0 prio0 75
  · rw [if_pos hc] at h
    cases h
    rw [hc]
    exact S5_sat
  · rw [if_neg hc] at h
    cases h

/-- Counterexample to C5: the solver returns an exact optimal solution in
which instructor 1's unrounded fractions sum to exactly 2 (the constraint is
tight), the first solve succeeds (so no relaxation retry is triggered), yet
the *reported* 3-decimal fractions of that instructor sum to 1.999 < 2. -/
theorem c5_counterexample :
    SolverSound S5 ∧
    S5 (fracBaseLP tt5 sp0 prio0 75) = some x5 ∧
    2 ≤ instrCountTT tt5 1 ∧
    optimize_attendance_simplex S5 tt5 sp0 prio0 75 = .ok res5 ∧
    ((res5.fractions.filter (fun e => e.session.instructorId = 1)).map
      (fun e => e.fraction)).sum < 2 := by
  refine ⟨S5_sound, by rw [S5, if_pos rfl], by decide, ?_, ?_⟩
  · rw [optimize_attendance_simplex, if_neg (by simp [tt5])]
    rw [show S5 (fracBaseLP tt5 sp0 prio0 75) = some x5 from by rw [S5, if_pos rfl]]
    rfl
  · have hfr : res5.fractions = [
        mkFracEntry ((⟨"Monday", 1, 1⟩, calculate_aps 1 (blockOf 1) sp0 prio0),
          66649/100000),
        mkFracEntry ((⟨"Monday", 2, 1⟩, calculate_aps 1 (blockOf 2) sp0 prio0),
          66649/100000),
        mkFracEntry ((⟨"Monday", 3, 1⟩, calculate_aps 1 (blockOf 3) sp0 prio0),
          66702/100000),
        mkFracEntry ((⟨"Monday", 4, 2⟩, calculate_aps 2 (blockOf 4) sp0 prio0), 1)] := by
      rw [res5, buildFrac]
      simp only []
      rw [mkClassList, tt5, x5]
      rfl
    have h666 : round3 (66649/100000 : ℚ) = 666/1000 := by
      rw [round3, round_eq]
      norm_num
    have h667 : round3 (33351/50000 : ℚ) = 667/1000 := by
      rw [round3, round_eq]
      norm_num
    rw [hfr]
    simp only [List.filter_cons, mkFracEntry]
    norm_num
    rw [h666, h667]
    norm_num

theorem S6_sound : SolverSound S6 := by
  intro lp x h
  rw [S6] at h
  by_cases hc : lp.nvars = 4 ∧ Satisfies lp xstar
  · rw [if_pos hc] at h
    cases h
    exact hc.2
  · rw [if_neg hc] at h
    cases h

theorem sfvX : strictFracVars xstar = [0, 1, 2, 3] := by
  rw [strictFracVars, xstar]
  simp only [List.enum, List.enumFrom, List.filter_cons, List.filter_nil, decide_eq_true_eq]
  norm_num

theorem fiX : fracIndices xstar = [0, 1, 2, 3] := by
  have h12 : ((1:ℚ)/1000000 < |1/2 - ((round ((1:ℚ)/2) : ℤ) : ℚ)|) := by
    rw [round_eq]
    norm_num
    rw [abs_of_nonneg (by norm_num : (0:ℚ) ≤ 1/2)]
    norm_num
  rw [fracIndices, xstar]
  simp only [List.enum, List.enumFrom, List.filter_cons, List.filter_nil, decide_eq_true_eq]
  rw [if_pos h12, if_pos h12, if_pos h12, if_pos h12]
  rfl

theorem cutRowX : cutRow xstar 4 = [1, 1, 1, 1] := by
  rw [cutRow, sfvX]
  rfl

theorem cutRhsX : cutRhs xstar = 2 := by
  rw [cutRhs, sfvX, xstar]
  norm_num [List.getD]

theorem cutCondX : cutCond xstar := by
  rw [cutCond, sfvX, xstar]
  norm_num [List.getD]

theorem ubRows6 : instructorUbRows (mkClassList tt6 sp0 prio0) =
    [([-1, -1, -1, -1], -2)] := by
  have hded : ((mkClassList tt6 sp0 prio0).map (fun c => c.1.instructorId)).dedup = [1] := by
    have hm : (mkClassList tt6 sp0 prio0).map (fun c => c.1.instructorId) = [1, 1, 1, 1] := by
      simp [mkClassList, tt6]
    rw [hm]
    decide
  have hfil : ((mkClassList tt6 sp0 prio0).filter (fun c => c.1.instructorId = 1)).length = 4 := by
    simp [mkClassList, tt6, List.filter_cons]
  have hrow : instrRow (mkClassList tt6 sp0 prio0) 1 = [-1, -1, -1, -1] := by
    simp [instrRow, mkClassList, tt6]
  rw [instructorUbRows, hded, List.filterMap_cons]
  rw [if_pos (by rw [hfil]; norm_num)]
  rw [hrow]
  rfl

theorem eqRows6 : intBaseEq tt6 50 = [([1, 1, 1, 1], 2)] := by
  rw [intBaseEq]
  rw [show requiredInt tt6 50 = 2 from by
    rw [requiredInt, clampPct]; norm_num [tt6]]
  norm_num [tt6, List.replicate]

/-- `xstar` is feasible for the root LP with any number of accumulated copies
of the cover cut. -/
theorem sat6 (k : ℕ) : Satisfies ⟨negCosts (mkClassList tt6 sp0 prio0),
    instructorUbRows (mkClassList tt6 sp0 prio0) ++
      List.replicate k (cutRow xstar 4, cutRhs xstar),
    intBaseEq tt6 50 ++ [], 4⟩ xstar := by
  refine ⟨by rw [xstar]; rfl, ?_, ?_, ?_⟩
  · intro r hr
    rcases List.mem_append.mp hr with hr | hr
    · rw [ubRows6] at hr
      simp only [List.mem_singleton] at hr
      subst hr
      norm_num [dot, xstar]
    · have := List.eq_of_mem_replicate hr
      subst this
      rw [cutRowX, cutRhsX]
      norm_num [dot, xstar]
  · intro r hr
    rw [eqRows6] at hr
    simp only [List.append_nil, List.mem_singleton] at hr
    subst hr
    norm_num [dot, xstar]
  · intro xi hxi
    have : xi = 1/2 := by
      rw [xstar] at hxi
      rcases List.mem_cons.mp hxi with h | h
      · exact h
      · rcases List.mem_cons.mp h with h | h
        · exact h
        · rcases List.mem_cons.mp h with h | h
          · exact h
          · simpa using h
    rw [this]
    norm_num

theorem S6_answers (k : ℕ) : S6 ⟨negCosts (mkClassList tt6 sp0 prio0),
    instructorUbRows (mkClassList tt6 sp0 prio0) ++
      List.replicate k (cutRow xstar 4, cutRhs xstar),
    intBaseEq tt6 50 ++ [], 4⟩ = some xstar := by
  rw [S6, if_pos ⟨rfl, sat6 k⟩]

theorem aps6morning : calculate_aps 1 "morning" sp0 prio0 = 1373/250 := by
  norm_num +decide [calculate_aps, find_professor, PROFESSORS, List.find?,
    PRIORITY_MULTIPLIER, timeBlockRatings, round3, round_eq, sp0, prio0]

theorem aps6midday : calculate_aps 1 "midday" sp0 prio0 = 2713/500 := by
  norm_num +decide [calculate_aps, find_professor, PROFESSORS, List.find?,
    PRIORITY_MULTIPLIER, timeBlockRatings, round3, round_eq, sp0, prio0]

theorem negCosts6 : negCosts (mkClassList tt6 sp0 prio0) =
    [-(1373/250), -(1373/250), -(2713/500), -(2713/500)] := by
  rw [negCosts, mkClassList, tt6]
  have h1 : blockOf 1 = "morning" := by decide
  have h2 : blockOf 2 = "morning" := by decide
  have h3 : blockOf 3 = "midday" := by decide
  have h4 : blockOf 4 = "midday" := by decide
  simp only [List.map_cons, List.map_nil, h1, h2, h3, h4]
  rw [aps6morning, aps6midday]

/-- With `S6`, every node of the recursion takes the cover-cut path and
recurses into an identical state with one more copy of the same cut: the
depth budget is always exhausted. -/
theorem c6_loop : ∀ fuel k, bnb S6 (negCosts (mkClassList tt6 sp0 prio0))
    (instructorUbRows (mkClassList tt6 sp0 prio0)) (intBaseEq tt6 50) 4 fuel
    (List.replicate k (cutRow xstar 4, cutRhs xstar)) [] none = .out := by
  intro fuel
  induction fuel with
  | zero =>
    intro k
    rw [bnb]
  | succ fuel ih =>
    intro k
    rw [bnb, S6_answers k]
    simp only []
    have hdot : dot (negCosts (mkClassList tt6 sp0 prio0)) xstar = -(5459/500) := by
      rw [negCosts6, xstar]
      norm_num [dot]
    rw [if_neg (by rw [hdot, bestObj]; norm_num)]
    rw [if_neg (by rw [fiX]; simp)]
    rw [if_pos cutCondX]
    rw [← List.replicate_succ' k (cutRow xstar 4, cutRhs xstar)]
    rw [S6_answers (k + 1)]
    simp only []
    rw [ih (k + 1)]

/-- Counterexample to C6: there is a sound solver and a four-session
timetable on which the `branch_and_bound` recursion never reaches its base
cases — the cover-cut path recurses forever, because the returned fractional
optimum already satisfies each new cut (`floor(s) = s = 2`), so no depth
budget suffices. -/
theorem c6_counterexample : SolverSound S6 ∧ ¬ BnbTerminates S6 tt6 sp0 prio0 50 := by
  refine ⟨S6_sound, ?_⟩
  rintro ⟨fuel, hne⟩
  apply hne
  have h := c6_loop fuel 0
  rw [show List.replicate 0 (cutRow xstar 4, cutRhs xstar) = [] from rfl] at h
  rw [intRootBnb, show tt6.length = 4 from rfl]
  exact h

theorem fixedCount_le (n : ℕ) (aU aE : List (List ℚ × ℚ)) :
    fixedCount n aU aE ≤ n := by
  rw [fixedCount]
  exact (Finset.card_filter_le _ _).trans (by simp)

theorem dot_map_zero (l : List ℕ) (x : List ℚ) :
    dot (l.map (fun _ => (0 : ℚ))) x = 0 := by
  induction l generalizing x with
  | nil => rfl
  | cons a t ih =>
    cases x with
    | nil => rfl
    | cons xi xs =>
      have h : dot ((a :: t).map (fun _ => (0 : ℚ))) (xi :: xs)
          = 0 * xi + dot (t.map (fun _ => (0 : ℚ))) xs := rfl
      rw [h, ih xs]
      ring

theorem dot_unitRow : ∀ (n j : ℕ) (x : List ℚ), j < n → x.length = n →
    dot (mkUnitRow n j) x = x.getD j 0 := by
  intro n
  induction n with
  | zero => intro j x hj; omega
  | succ n ih =>
    intro j x hj hlen
    cases x with
    | nil => simp at hlen
    | cons xi xs =>
      have hxs : xs.length = n := by simpa using hlen
      rw [mkUnitRow, List.range_succ_eq_map, List.map_cons, List.map_map]
      cases j with
      | zero =>
        have hz : ((fun i => if i = 0 then (1:ℚ) else 0) ∘ Nat.succ) =
            (fun _ : ℕ => (0:ℚ)) := by
          funext i
          simp
        rw [hz]
        simp only [dot, List.zipWith_cons_cons, List.sum_cons, if_pos rfl]
        rw [show (List.zipWith (fun a b => a * b)
          ((List.range n).map (fun _ => (0:ℚ))) xs).sum
          = dot ((List.range n).map (fun _ => (0:ℚ))) xs from rfl]
        rw [dot_map_zero]
        simp [List.getD]
      | succ j =>
        have hz : ((fun i => if i = j + 1 then (1:ℚ) else 0) ∘ Nat.succ) =
            (fun i : ℕ => if i = j then (1:ℚ) else 0) := by
          funext i
          by_cases hij : i = j <;> simp [hij]
        rw [hz]
        simp only [dot, List.zipWith_cons_cons, List.sum_cons]
        rw [if_neg (by omega)]
        rw [show (List.zipWith (fun a b => a * b)
          ((List.range n).map (fun i => if i = j then (1:ℚ) else 0)) xs).sum
          = dot (mkUnitRow n j) xs from rfl]
        rw [ih j xs (by omega) hxs]
        simp [List.getD]

theorem mem_fracIndices (x : List ℚ) (j : ℕ) (h : j ∈ fracIndices x) :
    j < x.length ∧
    1/1000000 < |x.getD j 0 - ((round (x.getD j 0) : ℤ) : ℚ)| := by
  rw [fracIndices] at h
  obtain ⟨p, hp, rfl⟩ := List.mem_map.mp h
  have hfil := List.mem_filter.mp hp
  have henum := hfil.1
  have hcond : 1/1000000 < |p.2 - ((round p.2 : ℤ) : ℚ)| := by
    simpa using hfil.2
  obtain ⟨hlt, hgetd⟩ : p.1 < x.length ∧ x.getD p.1 0 = p.2 := by
    rcases p with ⟨i, a⟩
    have hg := List.mem_enum_iff_getElem?.mp henum
    have hlt : i < x.length := by
      by_contra hge
      rw [List.getElem?_eq_none (by omega)] at hg
      cases hg
    refine ⟨hlt, ?_⟩
    rw [List.getD_eq_getElem?_getD, hg]
    rfl
  rw [hgetd]
  exact ⟨hlt, hcond⟩

theorem mostFractional_mem_or (x : List ℚ) :
    ∀ (l : List ℕ) (b : ℕ), mostFractional x l b ∈ l ∨ mostFractional x l b = b := by
  intro l
  induction l with
  | nil => intro b; right; rfl
  | cons i t ih =>
    intro b
    rw [mostFractional]
    rcases ih (if |x.getD i 0 - 1/2| < |x.getD b 0 - 1/2| then i else b) with hm | he
    · left
      exact List.mem_cons_of_mem i hm
    · rw [he]
      by_cases hc : |x.getD i 0 - 1/2| < |x.getD b 0 - 1/2|
      · left
        rw [if_pos hc]
        exact List.mem_cons_self i t
      · right
        rw [if_neg hc]

theorem branchVar_mem (x : List ℚ) (hne : fracIndices x ≠ []) :
    mostFractional x (fracIndices x) ((fracIndices x).headD 0) ∈ fracIndices x := by
  rcases mostFractional_mem_or x (fracIndices x) ((fracIndices x).headD 0) with hm | he
  · exact hm
  · rw [he]
    cases hfi : fracIndices x with
    | nil => exact absurd hfi hne
    | cons a t => simp

/-- A variable fixed by an accumulated branching row is integral in any
feasible solution, hence not fractional. -/
theorem fixed_not_fracIndex (lp : LinProg) (x : List ℚ) (hsat : Satisfies lp x)
    (j : ℕ) (hj : j < lp.nvars)
    (hfix : (mkUnitRow lp.nvars j, (0 : ℚ)) ∈ lp.ubRows ∨
      (mkUnitRow lp.nvars j, (1 : ℚ)) ∈ lp.eqRows) :
    j ∉ fracIndices x := by
  obtain ⟨hlen, hub, heq, hbd⟩ := hsat
  have hdot : dot (mkUnitRow lp.nvars j) x = x.getD j 0 :=
    dot_unitRow lp.nvars j x hj hlen
  have hmem : x.getD j 0 ∈ x := by
    have hjx : j < x.length := by omega
    rw [List.getD_eq_getElem?_getD, List.getElem?_eq_getElem hjx]
    exact List.getElem_mem hjx
  have hbdj := hbd _ hmem
  have hval : x.getD j 0 = 0 ∨ x.getD j 0 = 1 := by
    rcases hfix with hf | hf
    · left
      have := hub _ hf
      rw [hdot] at this
      exact le_antisymm (by simpa using this) hbdj.1
    · right
      have := heq _ hf
      rw [hdot] at this
      simpa using this
  intro hjf
  have hcond := (mem_fracIndices x j hjf).2
  rcases hval with hv | hv <;> rw [hv] at hcond
  · rw [show round (0:ℚ) = 0 from round_zero] at hcond
    norm_num at hcond
  · rw [show round (1:ℚ) = 1 from round_one] at hcond
    norm_num at hcond

/-- Adding a branching row for an unfixed variable strictly increases the
fixed-variable count. -/
theorem fixedCount_succ (n : ℕ) (aU aE aU' aE' : List (List ℚ × ℚ)) (j : ℕ)
    (hj : j < n)
    (hmono : ∀ i, ((mkUnitRow n i, (0 : ℚ)) ∈ aU → (mkUnitRow n i, (0 : ℚ)) ∈ aU') ∧
      ((mkUnitRow n i, (1 : ℚ)) ∈ aE → (mkUnitRow n i, (1 : ℚ)) ∈ aE'))
    (hnotold : ¬ ((mkUnitRow n j, (0 : ℚ)) ∈ aU ∨ (mkUnitRow n j, (1 : ℚ)) ∈ aE))
    (hnew : (mkUnitRow n j, (0 : ℚ)) ∈ aU' ∨ (mkUnitRow n j, (1 : ℚ)) ∈ aE') :
    fixedCount n aU aE + 1 ≤ fixedCount n aU' aE' := by
  rw [fixedCount, fixedCount]
  apply Finset.card_lt_card
  constructor
  · intro i hi
    have h1 := Finset.mem_filter.mp hi
    refine Finset.mem_filter.mpr ⟨h1.1, ?_⟩
    rcases h1.2 with h | h
    · exact Or.inl ((hmono i).1 h)
    · exact Or.inr ((hmono i).2 h)
  · intro hsub
    have hjmem : j ∈ (Finset.range n).filter (fun i =>
        (mkUnitRow n i, (0 : ℚ)) ∈ aU' ∨ (mkUnitRow n i, (1 : ℚ)) ∈ aE') :=
      Finset.mem_filter.mpr ⟨Finset.mem_range.mpr hj, hnew⟩
    have := hsub hjmem
    exact hnotold (Finset.mem_filter.mp this).2

/-- C6 (amended): with the cover-cut recursion step removed, the
branch-and-bound recursion of the integer optimizer terminates for every
sound solver: a depth budget of `n + 1` minus the number of already-fixed
variables always suffices, because each standard branch fixes one more
variable.  (With the cover-cut step included, termination fails; see the
counterexample.) -/
theorem c6_bnbNC_terminates (S : Solver) (c : List ℚ)
    (bUb bEq : List (List ℚ × ℚ)) (n : ℕ) (hS : SolverSound S) :
    ∀ fuel aU aE best, n + 1 ≤ fuel + fixedCount n aU aE →
      bnbNC S c bUb bEq n fuel aU aE best ≠ .out := by
  intro fuel
  induction fuel with
  | zero =>
    intro aU aE best hfuel
    have := fixedCount_le n aU aE
    omega
  | succ fuel ih =>
    intro aU aE best hfuel
    rw [bnbNC]
    cases hSx : S ⟨c, bUb ++ aU, bEq ++ aE, n⟩ with
    | none => simp
    | some x =>
      simp only []
      by_cases hobj : -(dot c x) ≤ bestObj best + 1/1000000
      · rw [if_pos hobj]
        simp
      · rw [if_neg hobj]
        by_cases hfrac : fracIndices x = []
        · rw [if_pos hfrac]
          by_cases hlt : bestObj best < -(dot c x)
          · rw [if_pos hlt]
            simp
          · rw [if_neg hlt]
            simp
        · rw [if_neg hfrac]
          have hsat := hS _ x hSx
          have hxlen : x.length = n := hsat.1
          have hbv_mem : mostFractional x (fracIndices x) ((fracIndices x).headD 0) ∈
              fracIndices x := branchVar_mem x hfrac
          have hbv_lt : mostFractional x (fracIndices x) ((fracIndices x).headD 0) < n := by
            have := (mem_fracIndices x _ hbv_mem).1
            omega
          have hnotfixed : ¬ ((mkUnitRow n (mostFractional x (fracIndices x)
              ((fracIndices x).headD 0)), (0 : ℚ)) ∈ aU ∨
              (mkUnitRow n (mostFractional x (fracIndices x)
                ((fracIndices x).headD 0)), (1 : ℚ)) ∈ aE) := by
            intro hfix
            have hfix' : (mkUnitRow n (mostFractional x (fracIndices x)
                ((fracIndices x).headD 0)), (0 : ℚ)) ∈ bUb ++ aU ∨
                (mkUnitRow n (mostFractional x (fracIndices x)
                  ((fracIndices x).headD 0)), (1 : ℚ)) ∈ bEq ++ aE := by
              rcases hfix with hf | hf
              · exact Or.inl (List.mem_append_right _ hf)
              · exact Or.inr (List.mem_append_right _ hf)
            exact fixed_not_fracIndex ⟨c, bUb ++ aU, bEq ++ aE, n⟩ x hsat _ hbv_lt
              hfix' hbv_mem
          have hgrow0 : fixedCount n aU aE + 1 ≤ fixedCount n
              (aU ++ [(mkUnitRow n (mostFractional x (fracIndices x)
                ((fracIndices x).headD 0)), 0)]) aE := by
            apply fixedCount_succ n aU aE _ _ _ hbv_lt
              (fun i => ⟨fun hi => List.mem_append_left _ hi, fun hi => hi⟩) hnotfixed
            exact Or.inl (List.mem_append_right _ (List.mem_singleton.mpr rfl))
          have hgrow1 : fixedCount n aU aE + 1 ≤ fixedCount n aU
              (aE ++ [(mkUnitRow n (mostFractional x (fracIndices x)
                ((fracIndices x).headD 0)), 1)]) := by
            apply fixedCount_succ n aU aE _ _ _ hbv_lt
              (fun i => ⟨fun hi => hi, fun hi => List.mem_append_left _ hi⟩) hnotfixed
            exact Or.inr (List.mem_append_right _ (List.mem_singleton.mpr rfl))
          cases hbr0 : bnbNC S c bUb bEq n fuel
              (aU ++ [(mkUnitRow n (mostFractional x (fracIndices x)
                ((fracIndices x).headD 0)), 0)]) aE best with
          | out =>
            exact absurd hbr0 (ih _ _ _ (by omega))
          | done best2 =>
            simp only []
            exact ih _ _ _ (by omega)

/-- Witness for C6 (amended): the always-failing (vacuously sound) solver on
the integer optimizer's own base data for the witness timetable. -/
theorem c6_bnbNC_terminates_witness :
    bnbNC failSolver (negCosts (mkClassList ttW sp0 prio0))
      (instructorUbRows (mkClassList ttW sp0 prio0)) (intBaseEq ttW 100)
      ttW.length 3 [] [] none ≠ .out :=
  c6_bnbNC_terminates failSolver (negCosts (mkClassList ttW sp0 prio0))
    (instructorUbRows (mkClassList ttW sp0 prio0)) (intBaseEq ttW 100)
    ttW.length (fun lp x h => absurd h (by rw [failSolver]; simp))
    3 [] [] none (by
      have : fixedCount ttW.length [] [] = 0 := by
        rw [fixedCount]
        simp
      rw [this, show ttW.length = 2 from rfl])

end LppSmart
